import Mathlib

/-!
# cloudflare-ddns: a shallow embedding of `main.go`

The program is one Go file.  Its logic is embedded as follows.

* A Go string is a sequence of bytes (`Bytes`).  The strings that `encoding/json` decodes
  (the configuration, the zone and record lists) are valid UTF-8 and are kept as Lean
  `String`s, which `utf8` turns into bytes; the body of the IP endpoint's response, and
  every text built from it, is `Bytes`.  Every string the `Domain` pattern accepts is pure
  ASCII.
* `regexp` is a model of the part of Go's `regexp` package the program uses: a regular
  expression tree, and a backtracking matcher that lists the ways to match in priority order
  (leftmost-first, greedy and lazy repetition, numbered capture groups).  The matcher is
  shown to find exactly the texts of the expression's language (`run_sound`,
  `run_complete`, `find_Domain_iff`).
* The network and the file system are a `World`: a record of the answers the environment
  gives to each outbound call.  `main` is a pure function from a `World` to an `Outcome`
  (the trace of what the run does, and the way the process ends).  `updateRecord` builds its
  URL, body and request as the source does, and an update request is in the trace only when
  it reaches `client.Do`.
* `JSON` is the reading of a JSON text that the claim about the webhook body refers to.
-/

set_option linter.unusedVariables false

/-! ## The `regexp` model -/

namespace regexp

/-- Syntax trees of the regular expressions used by the program. -/
inductive Regex where
  | empty
  | cls (p : Char → Bool)
  | bol
  | eol
  | cat (a b : Regex)
  | star (greedy : Bool) (a : Regex)
  | plus (greedy : Bool) (a : Regex)
  | quest (greedy : Bool) (a : Regex)
  | group (i : Nat) (a : Regex)

/-- A matcher thread: the position reached in the text, the text still to be read and the
capture registers (`cap i` is the index pair of group `i`, when it has taken part). -/
structure Thread where
  pos : Nat
  rest : List Char
  cap : Nat → Option (Nat × Nat)

/-- Repetition of a sub-matcher `f`, in priority order.  A greedy repetition prefers one more
round to stopping, a lazy one prefers stopping.  Every round must consume text, so a
repetition started with as much fuel as there is text left never runs out of fuel. -/
def iter (f : Thread → List Thread) (greedy : Bool) : Nat → Thread → List Thread
  | 0, t => [t]
  | n + 1, t =>
    let more := ((f t).filter (fun u => u.rest.length < t.rest.length)).flatMap (iter f greedy n)
    if greedy then more ++ [t] else t :: more

/-- All ways for `re` to match a prefix of the text left in thread `t`, most preferred first.
`bol` is `^` and `eol` is `$` without the multi-line flag: beginning and end of the text. -/
def run : Regex → Thread → List Thread
  | .empty, t => [t]
  | .cls p, t =>
    match t.rest with
    | [] => []
    | c :: cs => if p c then [{ t with pos := t.pos + 1, rest := cs }] else []
  | .bol, t => if t.pos = 0 then [t] else []
  | .eol, t => if t.rest.isEmpty then [t] else []
  | .cat a b, t => (run a t).flatMap (run b)
  | .star g a, t => iter (run a) g t.rest.length t
  | .plus g a, t => (run a t).flatMap (fun u => iter (run a) g u.rest.length u)
  | .quest g a, t => if g then run a t ++ [t] else t :: run a t
  | .group i a, t =>
    (run a t).map
      (fun u => { u with cap := fun j => if j = i then some (t.pos, u.pos) else u.cap j })

/-- At most `n` further copies of `a`, greedy: `(?:a(?:a ... )?)?`. -/
def Regex.opt (a : Regex) : Nat → Regex
  | 0 => .empty
  | n + 1 => .quest true (.cat a (Regex.opt a n))

/-- Exactly `n` copies of `a`, followed by `k`. -/
def Regex.copies (a : Regex) : Nat → Regex → Regex
  | 0, k => k
  | n + 1, k => .cat a (Regex.copies a n k)

/-- The counted repetition `a{lo,hi}`, expanded the way Go's `syntax.Simplify` expands it:
`lo` mandatory copies and then `hi - lo` nested optional ones. -/
def Regex.rep (a : Regex) (lo hi : Nat) : Regex :=
  Regex.copies a lo (Regex.opt a (hi - lo))

/-- The number of the last capture group of the expression. -/
def Regex.numSubexp : Regex → Nat
  | .cat a b => max a.numSubexp b.numSubexp
  | .star _ a => a.numSubexp
  | .plus _ a => a.numSubexp
  | .quest _ a => a.numSubexp
  | .group i a => max i a.numSubexp
  | _ => 0

/-- The preferred match that starts at index `start`, if there is one. -/
def matchAt (re : Regex) (s : List Char) (start : Nat) : Option (Nat × Thread) :=
  (run re ⟨start, s.drop start, fun _ => none⟩).head?.map (fun t => (start, t))

/-- Go's `(*Regexp).FindStringSubmatch`: the leftmost match of `re` in `s`, as the list of the
text of the whole match followed by the text of each capture group (`""` for a group that
took no part); the empty list (Go's `nil`) when there is no match. -/
def FindStringSubmatch (re : Regex) (s : String) : List String :=
  match (List.range (s.data.length + 1)).findSome? (matchAt re s.data) with
  | none => []
  | some (start, t) =>
    (List.range (re.numSubexp + 1)).map (fun i =>
      match (if i = 0 then some (start, t.pos) else t.cap i) with
      | some (lo, hi) => ⟨(s.data.drop lo).take (hi - lo)⟩
      | none => "")

/-- The texts an expression can consume, priorities and anchors left aside. -/
def Lang : Regex → List Char → Prop
  | .empty, w => w = []
  | .cls p, w => ∃ c, w = [c] ∧ p c = true
  | .bol, w => w = []
  | .eol, w => w = []
  | .cat a b, w => ∃ u v, w = u ++ v ∧ Lang a u ∧ Lang b v
  | .star _ a, w => ∃ ws : List (List Char), w = ws.flatten ∧ ∀ u ∈ ws, Lang a u
  | .plus _ a, w =>
    ∃ u, ∃ ws : List (List Char), w = u ++ ws.flatten ∧ Lang a u ∧ ∀ v ∈ ws, Lang a v
  | .quest _ a, w => w = [] ∨ Lang a w
  | .group _ a, w => Lang a w

/-- Thread `u` is thread `t` after reading `w`. -/
def Reads (t u : Thread) (w : List Char) : Prop :=
  t.rest = w ++ u.rest ∧ u.pos = t.pos + w.length

/-- Whether group `i` occurs in the expression. -/
def Regex.hasGroup (i : Nat) : Regex → Bool
  | .cat a b => a.hasGroup i || b.hasGroup i
  | .star _ a => a.hasGroup i
  | .plus _ a => a.hasGroup i
  | .quest _ a => a.hasGroup i
  | .group j a => j == i || a.hasGroup i
  | _ => false

/-- Whether the expression is free of the anchors `^` and `$`. -/
def Regex.anchorFree : Regex → Bool
  | .bol => false
  | .eol => false
  | .cat a b => a.anchorFree && b.anchorFree
  | .star _ a => a.anchorFree
  | .plus _ a => a.anchorFree
  | .quest _ a => a.anchorFree
  | .group _ a => a.anchorFree
  | _ => true

end regexp

/-! ## Go strings as bytes -/

namespace gostring

/-- A Go string: a sequence of bytes, which need not be valid UTF-8. -/
abbrev Bytes := List UInt8

/-- The UTF-8 encoding of one character. -/
def utf8Char (c : Char) : Bytes :=
  if c.toNat < 0x80 then [UInt8.ofNat c.toNat]
  else if c.toNat < 0x800 then
    [UInt8.ofNat (0xC0 + c.toNat / 0x40), UInt8.ofNat (0x80 + c.toNat % 0x40)]
  else if c.toNat < 0x10000 then
    [UInt8.ofNat (0xE0 + c.toNat / 0x1000), UInt8.ofNat (0x80 + c.toNat / 0x40 % 0x40),
      UInt8.ofNat (0x80 + c.toNat % 0x40)]
  else
    [UInt8.ofNat (0xF0 + c.toNat / 0x40000), UInt8.ofNat (0x80 + c.toNat / 0x1000 % 0x40),
      UInt8.ofNat (0x80 + c.toNat / 0x40 % 0x40), UInt8.ofNat (0x80 + c.toNat % 0x40)]

/-- The Go string of a text: its UTF-8 encoding.  The valid UTF-8 byte strings are the
byte strings of this form. -/
def utf8 (s : String) : Bytes := s.data.flatMap utf8Char

/-- The table of `unicode/utf8` for a lead byte: the length of the sequence it starts (0
when it starts none) and the range its second byte must lie in. -/
def lead (x : Nat) : Nat × Nat × Nat :=
  if 0xC2 ≤ x ∧ x ≤ 0xDF then (2, 0x80, 0xBF)
  else if x = 0xE0 then (3, 0xA0, 0xBF)
  else if x = 0xED then (3, 0x80, 0x9F)
  else if 0xE1 ≤ x ∧ x ≤ 0xEF then (3, 0x80, 0xBF)
  else if x = 0xF0 then (4, 0x90, 0xBF)
  else if 0xF1 ≤ x ∧ x ≤ 0xF3 then (4, 0x80, 0xBF)
  else if x = 0xF4 then (4, 0x80, 0x8F)
  else (0, 0, 0)

/-- A continuation byte: `0x80` to `0xBF`. -/
def isCont (b : UInt8) : Bool := decide (0x80 ≤ b.toNat) && decide (b.toNat ≤ 0xBF)

/-- The number of bytes of the valid UTF-8 sequence at the head of the input: 1 for an ASCII
byte, 2 to 4 for a well-formed longer sequence, 0 when the head byte starts no valid
sequence (there `utf8.DecodeRune` gives the error rune with width 1). -/
def runeWidth : Bytes → Nat
  | [] => 0
  | [b0] => if b0.toNat < 0x80 then 1 else 0
  | b0 :: b1 :: rest =>
    if b0.toNat < 0x80 then 1
    else if (lead b0.toNat).1 = 0 then 0
    else if ¬ ((lead b0.toNat).2.1 ≤ b1.toNat ∧ b1.toNat ≤ (lead b0.toNat).2.2) then 0
    else if (lead b0.toNat).1 = 2 then 2
    else
      match rest with
      | [] => 0
      | b2 :: rest2 =>
        if ¬ isCont b2 then 0
        else if (lead b0.toNat).1 = 3 then 3
        else
          match rest2 with
          | [] => 0
          | b3 :: _ => if isCont b3 then 4 else 0

/-- The bytes of U+FFFD, the replacement character. -/
def replacement : Bytes := [0xEF, 0xBF, 0xBD]

/-- Copy a byte string, every byte that is not part of a valid UTF-8 sequence replaced by
U+FFFD; `pending` counts the bytes of the current sequence still to be copied. -/
def coerce : Nat → Bytes → Bytes
  | _, [] => []
  | 0, b :: bs =>
    if b.toNat < 0x80 then b :: coerce 0 bs
    else if runeWidth (b :: bs) = 0 then replacement ++ coerce 0 bs
    else b :: coerce (runeWidth (b :: bs) - 1) bs
  | pending + 1, b :: bs => b :: coerce pending bs

/-- The string a JSON reader gets back from what `encoding/json` writes for a Go string:
the string itself when it is valid UTF-8, else with U+FFFD for every offending byte. -/
def toValidUTF8 (s : Bytes) : Bytes := coerce 0 s

end gostring

open gostring

open regexp

namespace ddns

/-! ## Data model (`main.go`, lines 15-45)

A Go `string` that comes out of `json.Unmarshal` (the configuration, the zone and record
lists) is valid UTF-8, because the decoder replaces what is not, and is kept as a `String`.
The body of the IP endpoint's response is raw, so it and every text built from it are
`Bytes`. -/

/-- Go's `error` values, by their message. -/
abbrev GoError := String

structure CloudflareConfig where
  Token : String
  Domain : String
deriving DecidableEq

structure Config where
  ReturnIP : String
  WebHook : String
  Cloudflare : CloudflareConfig
deriving DecidableEq

/-- An element of `Zone.Result`. -/
structure ZoneEntry where
  Name : String
  ID : String
deriving DecidableEq

/-- An element of `DNSRecords.Result`. -/
structure RecordEntry where
  Name : String
  ID : String
  Content : String
deriving DecidableEq

structure RecordInfo where
  «Type» : Bytes
  Name : Bytes
  Content : Bytes
  TTL : Int
deriving DecidableEq

def CloudflareURL : String := "https://api.cloudflare.com/client/v4/"

/-- The class `\w` of Go's regexp syntax: `[0-9A-Za-z_]`. -/
def isWord (c : Char) : Bool := c.isAlphanum || c == '_'

/-- The class `[\w-]`. -/
def isWordOrHyphen (c : Char) : Bool := isWord c || c == '-'

/-- The class of the escaped dot `\.`. -/
def isDot (c : Char) : Bool := c == '.'

/-- Group 1 of `Domain`: `(?:\w*?\.)*`. -/
def Domain.sub : Regex :=
  .star true (.cat (.star false (.cls isWord)) (.cls isDot))

/-- Group 2 of `Domain`: `[\w-]+?\.\w{2,5}`. -/
def Domain.root : Regex :=
  .cat (.plus false (.cls isWordOrHyphen)) (.cat (.cls isDot) (Regex.rep (.cls isWord) 2 5))

/-- The package variable `Domain`: `^((?:\w*?\.)*)([\w-]+?\.\w{2,5})$`. -/
def Domain : Regex :=
  .cat .bol (.cat (.group 1 Domain.sub) (.cat (.group 2 Domain.root) .eol))

deriving instance DecidableEq for Except

/-! ## Requests and the environment -/

/-- The JSON object `json.Marshal` writes for a `RecordInfo`, kept as what it says: the
value of each member, in the order of the struct tags `type`, `name`, `content`, `ttl`.  A
reader of the text gets each string back with U+FFFD in the place of every byte that was
not valid UTF-8. -/
structure RecordJSON where
  type : Bytes
  name : Bytes
  content : Bytes
  ttl : Int
deriving DecidableEq

/-- Model of `json.Marshal(RecordInfo)` (line 196). -/
def jsonMarshal (r : RecordInfo) : RecordJSON :=
  { type := toValidUTF8 r.«Type», name := toValidUTF8 r.Name,
    content := toValidUTF8 r.Content, ttl := r.TTL }

/-- An `http.Request` as `updateRecord` builds it: method, URL, the headers in the order
they are set, and the body. -/
structure Request where
  Method : String
  URL : String
  Header : List (String × String)
  Body : RecordJSON
deriving DecidableEq

/-- What the environment answers to the program's outbound calls during one run. -/
structure World where
  /-- Result of `os.ReadFile` of `config.json` beside the executable. -/
  readFile : Except GoError String
  /-- Result of `json.Unmarshal` of the file's bytes into a zero `Config` (its error is
  dropped). -/
  decodeConfig : String → Config
  /-- Result of `http.Get url` and `io.ReadAll` of the body: the error of the GET, or the
  bytes read together with the error of the read. -/
  httpGet : String → Except GoError (Bytes × Option GoError)
  /-- Result of `GET zones` with the bearer token: the error of building or sending the
  request, or the `Result` list that `json.Unmarshal` filled from the response. -/
  listZones : String → Except GoError (List ZoneEntry)
  /-- Result of `GET zones/{zone}/dns_records` with the bearer token, likewise. -/
  listRecords : String → String → Except GoError (List RecordEntry)
  /-- Verdict of `http.NewRequest` on a method and a URL: the error it returns when the URL
  does not parse (the parser of `net/url` is not modelled), and then nothing is sent. -/
  newRequest : String → String → Option GoError
  /-- Result of `client.Do` on an update request: the error of sending it, if any.  The
  response is read and decoded, and then dropped. -/
  clientDo : Request → Option GoError
  /-- Result of the `POST` of a body to the webhook: the error of building or sending the
  request, or the response's `StatusCode` and `Status`. -/
  postWebhook : String → Bytes → Except GoError (Nat × String)

/-- What a run does that can be observed: the calls `main` makes to `getIP`, `getZoneID`,
`getRecord` and `postMessage`, the update requests that `updateRecord` hands to
`client.Do`, and the lines written to standard output. -/
inductive Event where
  | getIP (url : String)
  | getZoneID (Token Domain : String)
  | getRecord (Token Zoneid SubDomain : String)
  | updateRequest (req : Request)
  | postMessage (webhookURL : String) (content : Bytes)
  | stdout (text : Bytes)
deriving DecidableEq

/-- How the process ends: `os.Exit n` (or returning from `main`, code 0), or the run-time
panic "index out of range [index] with length length". -/
inductive Exit where
  | code (n : Nat)
  | indexOutOfRange (index length : Nat)
deriving DecidableEq

structure Outcome where
  trace : List Event
  exit : Exit
deriving DecidableEq

/-! ## The functions of `main.go` -/

/-- The zero value of `Config`. -/
def Config.zero : Config := ⟨"", "", ⟨"", ""⟩⟩

/-- The line `fmt.Println(err)` writes. -/
def errLine (err : GoError) : Bytes := utf8 (err ++ "\n")

/-- Function `readToken` (lines 219-236): the configuration and the lines printed.  When the
file cannot be read the error is printed and `json.Unmarshal` of no bytes leaves the zero
value. -/
def readToken (w : World) : Config × List Bytes :=
  match w.readFile with
  | .error err => (Config.zero, [errLine err])
  | .ok bytes => (w.decodeConfig bytes, [])

/-- Function `getIP` (lines 97-110): the pair `(my_ip, err)` and the lines printed. -/
def getIP (w : World) (url : String) : (Bytes × Option GoError) × List Bytes :=
  match w.httpGet url with
  | .error err => (([], some err), [errLine err])
  | .ok (my_ip, err) => ((my_ip, err), [])

/-- The body `postMessage` builds (line 114): `fmt.Sprintf("{\"content\":\"%s\"}", content)`,
the bytes of `content` copied as they are. -/
def postMessageBody (content : Bytes) : Bytes :=
  utf8 "\x7b\"content\":\"" ++ content ++ utf8 "\"\x7d"

/-- Function `postMessage` (lines 112-139): the error returned and the lines printed. -/
def postMessage (w : World) (webhookURL : String) (content : Bytes) :
    Option GoError × List Bytes :=
  match w.postWebhook webhookURL (postMessageBody content) with
  | .error err => (some err, [errLine err])
  | .ok (StatusCode, Status) =>
    if StatusCode = 204 then (none, [content ++ utf8 "\n"])
    else (none, [utf8 Status ++ utf8 "\n" ++ content ++ utf8 "\n"])

/-- The loop of `getZoneID` (lines 159-164) over `zone.Result`. -/
def getZoneID.loop (Domain : String) : List ZoneEntry → String × Option GoError
  | [] => ("", some "Domain not found in zone.")
  | z :: rest => if z.Name = Domain then (z.ID, none) else getZoneID.loop Domain rest

/-- Function `getZoneID` (lines 141-165): the pair `(id, err)` and the lines printed. -/
def getZoneID (w : World) (Token Domain : String) : (String × Option GoError) × List Bytes :=
  match w.listZones Token with
  | .error err => (("", some err), [errLine err])
  | .ok Result => (getZoneID.loop Domain Result, [])

/-- The loop of `getRecord` (lines 186-191) over `records.Result`. -/
def getRecord.loop (SubDomain : String) : List RecordEntry → String × String × Option GoError
  | [] => ("", "", some "SubDomain not found in zone.")
  | r :: rest =>
    if r.Name = SubDomain then (r.Content, r.ID, none) else getRecord.loop SubDomain rest

/-- Function `getRecord` (lines 167-192): the triple `(content, id, err)` and the lines
printed. -/
def getRecord (w : World) (Token Zoneid SubDomain : String) :
    (String × String × Option GoError) × List Bytes :=
  match w.listRecords Token Zoneid with
  | .error err => (("", "", some err), [errLine err])
  | .ok Result => (getRecord.loop SubDomain Result, [])

/-- The URL of line 195: `fmt.Sprintf("%szones/%s/dns_records/%s", CloudflareURL, ZoneID,
RecordID)`. -/
def updateURL (ZoneID RecordID : String) : String :=
  CloudflareURL ++ "zones/" ++ ZoneID ++ "/dns_records/" ++ RecordID

/-- The request of lines 198-205: a `PUT` to the record's URL with the two headers and the
JSON encoding of the record as body. -/
def updateRequest (Token ZoneID RecordID : String) (data : RecordInfo) : Request :=
  { Method := "PUT", URL := updateURL ZoneID RecordID,
    Header := [("Content-Type", "application/json"), ("Authorization", "Bearer " ++ Token)],
    Body := jsonMarshal data }

/-- Function `updateRecord` (lines 194-217): the error returned, and what it does.  When
`http.NewRequest` fails it prints the error and returns before anything is sent; else the
request goes to `client.Do`, whose error is printed and returned; the response is read and
decoded but not looked at. -/
def updateRecord (w : World) (Token ZoneID RecordID : String) (data : RecordInfo) :
    Option GoError × List Event :=
  match w.newRequest "PUT" (updateURL ZoneID RecordID) with
  | some err => (some err, [Event.stdout (errLine err)])
  | none =>
    match w.clientDo (updateRequest Token ZoneID RecordID data) with
    | some err =>
      (some err,
        [Event.updateRequest (updateRequest Token ZoneID RecordID data),
          Event.stdout (errLine err)])
    | none => (none, [Event.updateRequest (updateRequest Token ZoneID RecordID data)])

/-- Go's `len(s)`, counted in characters. -/
def len (s : String) : Nat := s.data.length

/-- Go's slice expression `s[:hi]`, for `hi ≤ len s`. -/
def sliceTo (s : String) (hi : Nat) : String := ⟨s.data.take hi⟩

/-- Lines 55-57 of `main`: the pair `(sub_domain, root_domain)` taken from the match, or the
index fault of reading `result[2]` (and then `result[1]`) of a list that is too short. -/
def captures (domain : String) : Except Exit (String × String) :=
  let result := FindStringSubmatch Domain domain
  match result[2]? with
  | none => .error (.indexOutOfRange 2 result.length)
  | some root_domain =>
    match result[1]? with
    | none => .error (.indexOutOfRange 1 result.length)
    | some r1 => .ok (sliceTo r1 (len r1), root_domain)

/-- The text of line 76. -/
def noUpdateMessage : Bytes := utf8 "DNS更新はありませんでした。"

/-- The text of line 91: the format is a raw string, so it holds the two characters
backslash and `n`, not a line break; `%s` copies the bytes of its operand. -/
def updateMessage (domain : String) (my_ip : Bytes) : Bytes :=
  utf8 "DNSを更新しました。\\n" ++ utf8 domain ++ utf8 " : " ++ my_ip

/-- The record of lines 81-86. -/
def updateData (domain : String) (my_ip : Bytes) : RecordInfo :=
  { «Type» := utf8 "A", Name := utf8 domain, Content := my_ip, TTL := 3600 }

/-- The lines a callee printed, as events. -/
def printed (out : List Bytes) : List Event := out.map Event.stdout

/-- Function `main` (lines 47-95).  Go compares strings byte by byte (line 75). -/
def main (w : World) : Outcome :=
  let rt := readToken w
  let config := rt.1
  let ip := getIP w config.ReturnIP
  let my_ip := ip.1.1
  let tr1 := printed rt.2 ++ [Event.getIP config.ReturnIP] ++ printed ip.2
  match captures config.Cloudflare.Domain with
  | .error fault => ⟨tr1, fault⟩
  | .ok (_sub_domain, root_domain) =>
    let z := getZoneID w config.Cloudflare.Token root_domain
    let zone_id := z.1.1
    let tr2 := tr1 ++ [Event.getZoneID config.Cloudflare.Token root_domain] ++ printed z.2
    match z.1.2 with
    | some err => ⟨tr2 ++ [Event.stdout (errLine err)], .code 1⟩
    | none =>
      let r := getRecord w config.Cloudflare.Token zone_id config.Cloudflare.Domain
      let now_IP := r.1.1
      let record_id := r.1.2.1
      let tr3 := tr2 ++
        [Event.getRecord config.Cloudflare.Token zone_id config.Cloudflare.Domain] ++ printed r.2
      match r.1.2.2 with
      | some err => ⟨tr3 ++ [Event.stdout (errLine err)], .code 1⟩
      | none =>
        let tr4 := tr3 ++ [Event.stdout (utf8 now_IP ++ utf8 " " ++ my_ip ++ utf8 "\n")]
        if utf8 now_IP = my_ip then
          let p := postMessage w config.WebHook noUpdateMessage
          ⟨tr4 ++ [Event.postMessage config.WebHook noUpdateMessage] ++ printed p.2, .code 0⟩
        else
          let data := updateData config.Cloudflare.Domain my_ip
          let u := updateRecord w config.Cloudflare.Token zone_id record_id data
          let tr5 := tr4 ++ u.2
          match u.1 with
          | some err => ⟨tr5 ++ [Event.stdout (errLine err)], .code 0⟩
          | none =>
            let context := updateMessage config.Cloudflare.Domain my_ip
            let p := postMessage w config.WebHook context
            ⟨tr5 ++ [Event.postMessage config.WebHook context] ++ printed p.2, .code 0⟩

/-! ## Reading a run -/

/-- The configuration `main` works with (line 49). -/
def config (w : World) : Config := (readToken w).1

/-- The address `main` observes: `my_ip` of line 52, the error dropped. -/
def my_ip (w : World) : Bytes := (getIP w (config w).ReturnIP).1.1

def Event.isZoneLookup : Event → Bool
  | .getZoneID _ _ => true
  | _ => false

def Event.isRecordLookup : Event → Bool
  | .getRecord _ _ _ => true
  | _ => false

def Event.isUpdate : Event → Bool
  | .updateRequest _ => true
  | _ => false

def Event.isPost : Event → Bool
  | .postMessage _ _ => true
  | _ => false

/-- The zone lookups of a run, in order. -/
def zoneLookups (o : Outcome) : List Event := o.trace.filter Event.isZoneLookup

/-- The record lookups of a run, in order. -/
def recordLookups (o : Outcome) : List Event := o.trace.filter Event.isRecordLookup

/-- The update requests of a run, in order. -/
def updates (o : Outcome) : List Event := o.trace.filter Event.isUpdate

/-- The calls of `postMessage` of a run, in order. -/
def posts (o : Outcome) : List Event := o.trace.filter Event.isPost

/-- The world of the specification's example: one zone `example.com` with id `Z1`, one
record `home.example.com` with id `R1` and content `1.2.3.4`, a webhook that answers 204;
the configured domain and the answer of the IP endpoint are left open. -/
def exampleWorld (domain : String) (ip : Except GoError Bytes) : World where
  readFile := .ok "\x7b\x7d"
  decodeConfig := fun _ => ⟨"https://ip.example/", "https://hook.example/", ⟨"TOKEN", domain⟩⟩
  httpGet := fun _ =>
    match ip with
    | .error err => .error err
    | .ok body => .ok (body, none)
  listZones := fun _ => .ok [⟨"example.com", "Z1"⟩]
  listRecords := fun _ _ => .ok [⟨"home.example.com", "R1", "1.2.3.4"⟩]
  newRequest := fun _ _ => none
  clientDo := fun _ => none
  postWebhook := fun _ _ => .ok (204, "204 No Content")

/-- The example's world for the domain `home.example.com`, with a record id that holds a
line break.  The update URL then holds a control character, which the URL parser behind
`http.NewRequest` refuses; every other URL is accepted. -/
def ctlRecordWorld (ip : Except GoError Bytes) : World where
  readFile := .ok "\x7b\x7d"
  decodeConfig := fun _ =>
    ⟨"https://ip.example/", "https://hook.example/", ⟨"TOKEN", "home.example.com"⟩⟩
  httpGet := fun _ =>
    match ip with
    | .error err => .error err
    | .ok body => .ok (body, none)
  listZones := fun _ => .ok [⟨"example.com", "Z1"⟩]
  listRecords := fun _ _ => .ok [⟨"home.example.com", "R\n1", "1.2.3.4"⟩]
  newRequest := fun _ url =>
    if url = "https://api.cloudflare.com/client/v4/zones/Z1/dns_records/R\n1" then
      some ("parse \"https://api.cloudflare.com/client/v4/zones/Z1/dns_records/R\\n1\": " ++
        "net/url: invalid control character in URL")
    else none
  clientDo := fun _ => none
  postWebhook := fun _ _ => .ok (204, "204 No Content")

/-- A world without a readable `config.json`, in which every request fails. -/
def noConfigWorld : World where
  readFile := .error "open config.json: no such file or directory"
  decodeConfig := fun _ => Config.zero
  httpGet := fun _ => .error "unsupported protocol scheme"
  listZones := fun _ => .error "no route to host"
  listRecords := fun _ _ => .error "no route to host"
  newRequest := fun _ _ => none
  clientDo := fun _ => some "no route to host"
  postWebhook := fun _ _ => .error "unsupported protocol scheme"

end ddns

/-! ## Reading a JSON text

The reader follows `encoding/json`: a text is a sequence of bytes, a string literal may hold
any byte from `0x20` on other than the quote and the backslash, and a byte that is not part
of a valid UTF-8 sequence is read as U+FFFD.  The decoded string is a Go string again. -/

namespace JSON

/-- One unit of a decoded string literal: a byte taken as it is (or the byte of a
two-character escape), or the code unit of a `\uXXXX` escape. -/
inductive Piece where
  | lit (b : UInt8)
  | unit (u : Nat)

/-- Where the scan of a string literal stands: in plain text, right after a backslash,
inside `\uXXXX` with `left` digits to go and the value `acc` read so far, or inside a
multi-byte character with `left` bytes to go. -/
inductive Mode where
  | plain
  | escape
  | hex (left acc : Nat)
  | copy (left : Nat)

/-- The value of a hexadecimal digit. -/
def hexVal (b : UInt8) : Option Nat :=
  if 48 ≤ b.toNat ∧ b.toNat ≤ 57 then some (b.toNat - 48)
  else if 97 ≤ b.toNat ∧ b.toNat ≤ 102 then some (b.toNat - 87)
  else if 65 ≤ b.toNat ∧ b.toNat ≤ 70 then some (b.toNat - 55)
  else none

/-- The byte a two-character escape stands for: the escapes of the quote, the backslash and
the slash, and `\b`, `\f`, `\n`, `\r`, `\t`. -/
def simpleEscape (b : UInt8) : Option UInt8 :=
  if b.toNat = 34 then some 34
  else if b.toNat = 92 then some 92
  else if b.toNat = 47 then some 47
  else if b.toNat = 98 then some 8
  else if b.toNat = 102 then some 12
  else if b.toNat = 110 then some 10
  else if b.toNat = 114 then some 13
  else if b.toNat = 116 then some 9
  else none

/-- Scan a string literal from just after its opening quote (byte 34): the pieces up to the
closing quote and the text after it.  A raw control byte, an unknown escape (after the
backslash, byte 92) and a missing closing quote are errors. -/
def scan : Mode → List Piece → Bytes → Option (List Piece × Bytes)
  | _, _, [] => none
  | .plain, acc, b :: bs =>
    if b.toNat = 34 then some (acc.reverse, bs)
    else if b.toNat = 92 then scan .escape acc bs
    else if b.toNat < 32 then none
    else if b.toNat < 128 then scan .plain (.lit b :: acc) bs
    else if runeWidth (b :: bs) = 0 then scan .plain (.unit 0xFFFD :: acc) bs
    else scan (.copy (runeWidth (b :: bs) - 1)) (.lit b :: acc) bs
  | .copy left, acc, b :: bs =>
    if left ≤ 1 then scan .plain (.lit b :: acc) bs
    else scan (.copy (left - 1)) (.lit b :: acc) bs
  | .escape, acc, b :: bs =>
    if b.toNat = 117 then scan (.hex 4 0) acc bs
    else
      match simpleEscape b with
      | some e => scan .plain (.lit e :: acc) bs
      | none => none
  | .hex left v, acc, b :: bs =>
    match hexVal b with
    | none => none
    | some h =>
      if left ≤ 1 then scan .plain (.unit (16 * v + h) :: acc) bs
      else scan (.hex (left - 1) (16 * v + h)) acc bs

/-- The bytes of a lone `\uXXXX` code unit (U+FFFD for an unpaired surrogate). -/
def unitBytes (u : Nat) : Bytes :=
  if 0xD800 ≤ u ∧ u < 0xE000 then replacement else utf8Char (Char.ofNat u)

/-- The Go string of a list of pieces: a high surrogate followed by a low one is one
character. -/
def text : List Piece → Bytes
  | [] => []
  | .lit b :: rest => b :: text rest
  | .unit hi :: .unit lo :: rest =>
    if 0xD800 ≤ hi ∧ hi < 0xDC00 ∧ 0xDC00 ≤ lo ∧ lo < 0xE000 then
      utf8Char (Char.ofNat (0x10000 + (hi - 0xD800) * 0x400 + (lo - 0xDC00))) ++ text rest
    else unitBytes hi ++ text (.unit lo :: rest)
  | .unit u :: rest => unitBytes u ++ text rest

/-- JSON white space: space, tab, line feed, carriage return. -/
def isWs (b : UInt8) : Bool := b == 32 || b == 9 || b == 10 || b == 13

def skipWs : Bytes → Bytes
  | [] => []
  | b :: bs => if isWs b then skipWs bs else b :: bs

/-- A string literal at the head of the input: its decoded text and the input after it. -/
def stringLit : Bytes → Option (Bytes × Bytes)
  | [] => none
  | b :: bs => if b = 34 then (scan .plain [] bs).map (fun r => (text r.1, r.2)) else none

/-- The given byte at the head of the input: the input after it. -/
def expect (c : UInt8) : Bytes → Option Bytes
  | [] => none
  | x :: xs => if x = c then some xs else none

/-- Read a JSON text that is an object (between the braces, bytes 123 and 125) with exactly
one member, whose name is `content` and whose value, after the colon (byte 58), is a
string: the decoded value, or `none` for any other text. -/
def contentObject (s : Bytes) : Option Bytes :=
  (expect 123 (skipWs s)).bind fun s₁ =>
  (stringLit (skipWs s₁)).bind fun k =>
  if k.1 ≠ utf8 "content" then none else
  (expect 58 (skipWs k.2)).bind fun s₂ =>
  (stringLit (skipWs s₂)).bind fun v =>
  (expect 125 (skipWs v.2)).bind fun s₃ =>
  if skipWs s₃ = [] then some v.1 else none

/-- A character that a JSON string literal holds as itself: no quote, no backslash, no control
character. -/
def plainChar (c : Char) : Bool := c != '"' && c != '\\' && decide (32 ≤ c.toNat)

end JSON

/-! ## The matcher only finds texts of the expression's language -/

namespace regexp

theorem Reads.refl (t : Thread) : Reads t t [] := by simp [Reads]

theorem Reads.trans {t u v : Thread} {w₁ w₂ : List Char}
    (h₁ : Reads t u w₁) (h₂ : Reads u v w₂) : Reads t v (w₁ ++ w₂) := by
  obtain ⟨a, b⟩ := h₁
  obtain ⟨c, d⟩ := h₂
  refine ⟨by rw [a, c, List.append_assoc], ?_⟩
  rw [d, b, List.length_append, Nat.add_assoc]

theorem iter_sound {f : Thread → List Thread} {P : List Char → Prop} (g : Bool)
    (hf : ∀ t u, u ∈ f t → ∃ w, Reads t u w ∧ P w) :
    ∀ (n : Nat) (t u : Thread), u ∈ iter f g n t →
      ∃ ws : List (List Char), Reads t u ws.flatten ∧ ∀ w ∈ ws, P w := by
  intro n
  induction n with
  | zero =>
    intro t u hu
    simp only [iter, List.mem_singleton] at hu
    subst hu
    exact ⟨[], Reads.refl _, by simp⟩
  | succ n ih =>
    intro t u hu
    have key : u = t ∨ ∃ v, v ∈ f t ∧ u ∈ iter f g n v := by
      simp only [iter] at hu
      cases g <;> simp [List.mem_flatMap, List.mem_filter] at hu
      · rcases hu with h | ⟨v, ⟨hv, _⟩, hu⟩
        · exact Or.inl h
        · exact Or.inr ⟨v, hv, hu⟩
      · rcases hu with ⟨v, ⟨hv, _⟩, hu⟩ | h
        · exact Or.inr ⟨v, hv, hu⟩
        · exact Or.inl h
    rcases key with h | ⟨v, hv, hu⟩
    · subst h
      exact ⟨[], Reads.refl _, by simp⟩
    · obtain ⟨w, hw, hP⟩ := hf t v hv
      obtain ⟨ws, hws, hPs⟩ := ih v u hu
      refine ⟨w :: ws, ?_, ?_⟩
      · simpa using hw.trans hws
      · intro x hx
        rcases List.mem_cons.1 hx with h | h
        · exact h ▸ hP
        · exact hPs x h

theorem run_sound : ∀ (re : Regex) (t u : Thread), u ∈ run re t → ∃ w, Reads t u w ∧ Lang re w := by
  intro re
  induction re with
  | empty =>
    intro t u hu
    simp only [run, List.mem_singleton] at hu
    subst hu
    exact ⟨[], Reads.refl _, rfl⟩
  | cls p =>
    intro t u hu
    simp only [run] at hu
    split at hu
    · simp at hu
    · rename_i c cs hrest
      split at hu
      · rename_i hp
        simp only [List.mem_singleton] at hu
        subst hu
        exact ⟨[c], ⟨by simp [hrest], by simp⟩, c, rfl, hp⟩
      · simp at hu
  | bol =>
    intro t u hu
    simp only [run] at hu
    split at hu
    · simp only [List.mem_singleton] at hu
      subst hu
      exact ⟨[], Reads.refl _, rfl⟩
    · simp at hu
  | eol =>
    intro t u hu
    simp only [run] at hu
    split at hu
    · simp only [List.mem_singleton] at hu
      subst hu
      exact ⟨[], Reads.refl _, rfl⟩
    · simp at hu
  | cat a b iha ihb =>
    intro t u hu
    simp only [run, List.mem_flatMap] at hu
    obtain ⟨v, hv, hu⟩ := hu
    obtain ⟨w₁, h₁, l₁⟩ := iha t v hv
    obtain ⟨w₂, h₂, l₂⟩ := ihb v u hu
    exact ⟨w₁ ++ w₂, h₁.trans h₂, w₁, w₂, rfl, l₁, l₂⟩
  | star g a ih =>
    intro t u hu
    simp only [run] at hu
    obtain ⟨ws, hws, hP⟩ := iter_sound g ih _ t u hu
    exact ⟨ws.flatten, hws, ws, rfl, hP⟩
  | plus g a ih =>
    intro t u hu
    simp only [run, List.mem_flatMap] at hu
    obtain ⟨v, hv, hu⟩ := hu
    obtain ⟨w₁, h₁, l₁⟩ := ih t v hv
    obtain ⟨ws, hws, hP⟩ := iter_sound g ih _ v u hu
    exact ⟨w₁ ++ ws.flatten, h₁.trans hws, w₁, ws, rfl, l₁, hP⟩
  | quest g a ih =>
    intro t u hu
    have key : u = t ∨ u ∈ run a t := by
      simp only [run] at hu
      cases g <;> simp at hu
      · exact hu
      · exact hu.symm
    rcases key with h | h
    · subst h
      exact ⟨[], Reads.refl _, Or.inl rfl⟩
    · obtain ⟨w, hw, l⟩ := ih t u h
      exact ⟨w, hw, Or.inr l⟩
  | group i a ih =>
    intro t u hu
    simp only [run, List.mem_map] at hu
    obtain ⟨v, hv, rfl⟩ := hu
    obtain ⟨w, hw, l⟩ := ih t v hv
    exact ⟨w, hw, l⟩

theorem iter_cap {f : Thread → List Thread} (g : Bool) (i : Nat)
    (hf : ∀ t u, u ∈ f t → u.cap i = t.cap i) :
    ∀ (n : Nat) (t u : Thread), u ∈ iter f g n t → u.cap i = t.cap i := by
  intro n
  induction n with
  | zero =>
    intro t u hu
    simp only [iter, List.mem_singleton] at hu
    rw [hu]
  | succ n ih =>
    intro t u hu
    have key : u = t ∨ ∃ v, v ∈ f t ∧ u ∈ iter f g n v := by
      simp only [iter] at hu
      cases g <;> simp [List.mem_flatMap, List.mem_filter] at hu
      · rcases hu with h | ⟨v, ⟨hv, _⟩, hu⟩
        · exact Or.inl h
        · exact Or.inr ⟨v, hv, hu⟩
      · rcases hu with ⟨v, ⟨hv, _⟩, hu⟩ | h
        · exact Or.inr ⟨v, hv, hu⟩
        · exact Or.inl h
    rcases key with h | ⟨v, hv, hu⟩
    · rw [h]
    · rw [ih v u hu, hf t v hv]

theorem run_cap (i : Nat) : ∀ (re : Regex), re.hasGroup i = false →
    ∀ (t u : Thread), u ∈ run re t → u.cap i = t.cap i := by
  intro re
  induction re with
  | empty => intro _ t u hu; simp only [run, List.mem_singleton] at hu; rw [hu]
  | cls p =>
    intro _ t u hu
    simp only [run] at hu
    split at hu
    · simp at hu
    · split at hu
      · simp only [List.mem_singleton] at hu
        rw [hu]
      · simp at hu
  | bol =>
    intro _ t u hu
    simp only [run] at hu
    split at hu
    · simp only [List.mem_singleton] at hu; rw [hu]
    · simp at hu
  | eol =>
    intro _ t u hu
    simp only [run] at hu
    split at hu
    · simp only [List.mem_singleton] at hu; rw [hu]
    · simp at hu
  | cat a b iha ihb =>
    intro hg t u hu
    simp only [Regex.hasGroup, Bool.or_eq_false_iff] at hg
    simp only [run, List.mem_flatMap] at hu
    obtain ⟨v, hv, hu⟩ := hu
    rw [ihb hg.2 v u hu, iha hg.1 t v hv]
  | star g a ih =>
    intro hg t u hu
    simp only [run] at hu
    exact iter_cap g i (ih hg) _ t u hu
  | plus g a ih =>
    intro hg t u hu
    simp only [run, List.mem_flatMap] at hu
    obtain ⟨v, hv, hu⟩ := hu
    rw [iter_cap g i (ih hg) _ v u hu, ih hg t v hv]
  | quest g a ih =>
    intro hg t u hu
    have key : u = t ∨ u ∈ run a t := by
      simp only [run] at hu
      cases g <;> simp at hu
      · exact hu
      · exact hu.symm
    rcases key with h | h
    · rw [h]
    · exact ih hg t u h
  | group j a ih =>
    intro hg t u hu
    simp only [Regex.hasGroup, Bool.or_eq_false_iff, beq_eq_false_iff_ne] at hg
    simp only [run, List.mem_map] at hu
    obtain ⟨v, hv, rfl⟩ := hu
    simp only
    rw [if_neg (Ne.symm hg.1)]
    exact ih hg.2 t v hv

end regexp

namespace regexp

/-- Shape of every match of `^(A)(B)$` when `B` holds no group 1. -/
theorem mem_run_two_groups (A B : Regex) (hB : B.hasGroup 1 = false) {t₀ t : Thread}
    (h : t ∈ run (.cat .bol (.cat (.group 1 A) (.cat (.group 2 B) .eol))) t₀) :
    t₀.pos = 0 ∧ ∃ w₁ w₂, t₀.rest = w₁ ++ w₂ ∧ t.pos = t₀.pos + (w₁ ++ w₂).length ∧
      t.cap 1 = some (t₀.pos, t₀.pos + w₁.length) ∧
      t.cap 2 = some (t₀.pos + w₁.length, t.pos) ∧
      Lang A w₁ ∧ Lang B w₂ := by
  simp only [run, List.mem_flatMap, List.mem_map] at h
  obtain ⟨a, ha, b, ⟨v₁, hv₁, rfl⟩, c, ⟨v₂, hv₂, rfl⟩, ht⟩ := h
  split at ha
  · rename_i hpos
    simp only [List.mem_singleton] at ha
    subst ha
    split at ht
    · rename_i hrest
      simp only [List.mem_singleton] at ht
      subst ht
      simp only [List.isEmpty_iff] at hrest
      obtain ⟨w₁, r₁, l₁⟩ := run_sound _ _ _ hv₁
      obtain ⟨w₂, r₂, l₂⟩ := run_sound _ _ _ hv₂
      have c₁ := run_cap 1 B hB _ _ hv₂
      simp only [Reads] at r₁ r₂
      refine ⟨hpos, w₁, w₂, ?_, ?_, ?_, ?_, l₁, l₂⟩
      · rw [r₁.1, r₂.1, hrest]; simp
      · simp only [r₂.2, r₁.2, List.length_append]; omega
      · simp only [c₁]
        simp [r₁.2]
      · simp [r₁.2]
    · simp at ht
  · simp at ha

end regexp

namespace ddns
open regexp

theorem matchAt_Domain {s : List Char} {start st : Nat} {t : Thread}
    (h : matchAt Domain s start = some (st, t)) :
    st = 0 ∧ ∃ w₁ w₂, s = w₁ ++ w₂ ∧ t.pos = s.length ∧
      t.cap 1 = some (0, w₁.length) ∧ t.cap 2 = some (w₁.length, s.length) ∧
      Lang Domain.sub w₁ ∧ Lang Domain.root w₂ := by
  simp only [matchAt, Option.map_eq_some', Prod.mk.injEq] at h
  obtain ⟨u, hu, rfl, rfl⟩ := h
  have hmem := List.mem_of_mem_head? hu
  obtain ⟨hpos, w₁, w₂, hs, hp, c₁, c₂, l₁, l₂⟩ :=
    mem_run_two_groups Domain.sub Domain.root (by decide) hmem
  simp only at hpos hs hp c₁ c₂
  subst hpos
  simp only [List.drop_zero, Nat.zero_add] at hs hp c₁ c₂
  subst hs
  exact ⟨rfl, w₁, w₂, rfl, hp, c₁, by rw [c₂, hp], l₁, l₂⟩

theorem find_Domain (d : String) (h : FindStringSubmatch Domain d ≠ []) :
    ∃ w₁ w₂, d.data = w₁ ++ w₂ ∧ FindStringSubmatch Domain d = [d, ⟨w₁⟩, ⟨w₂⟩] ∧
      Lang Domain.sub w₁ ∧ Lang Domain.root w₂ := by
  unfold FindStringSubmatch at h ⊢
  cases hf : (List.range (d.data.length + 1)).findSome? (matchAt Domain d.data) with
  | none => rw [hf] at h; exact absurd rfl h
  | some r =>
    obtain ⟨st, t⟩ := r
    obtain ⟨a, _, ha⟩ := List.exists_of_findSome?_eq_some hf
    obtain ⟨rfl, w₁, w₂, hs, hp, c₁, c₂, l₁, l₂⟩ := matchAt_Domain ha
    refine ⟨w₁, w₂, hs, ?_, l₁, l₂⟩
    have hn : Domain.numSubexp = 2 := by decide
    simp only [hn]
    have hr : List.range (2 + 1) = [0, 1, 2] := by decide
    rw [hr]
    have hd : d = ⟨w₁ ++ w₂⟩ := by rw [← hs]
    simp [c₁, c₂, hp, hs]
    rw [← List.length_append, List.take_length]
    exact hd.symm

end ddns

namespace regexp

theorem lang_star_cls (g : Bool) {p : Char → Bool} {w : List Char}
    (h : Lang (.star g (.cls p)) w) : ∀ c ∈ w, p c = true := by
  obtain ⟨ws, rfl, hws⟩ := h
  intro c hc
  obtain ⟨u, hu, hcu⟩ := List.mem_flatten.1 hc
  obtain ⟨c', rfl, hp⟩ := hws u hu
  rw [List.mem_singleton.1 hcu]
  exact hp

theorem lang_plus_cls {g : Bool} {p : Char → Bool} {w : List Char}
    (h : Lang (.plus g (.cls p)) w) : w ≠ [] ∧ ∀ c ∈ w, p c = true := by
  obtain ⟨u, ws, rfl, ⟨c₀, rfl, hp₀⟩, hws⟩ := h
  refine ⟨by simp, ?_⟩
  intro c hc
  rcases List.mem_append.1 hc with hc | hc
  · rw [List.mem_singleton.1 hc]; exact hp₀
  · exact lang_star_cls g ⟨ws, rfl, hws⟩ c hc

theorem lang_opt_cls {p : Char → Bool} : ∀ (n : Nat) (w : List Char),
    Lang (Regex.opt (.cls p) n) w → w.length ≤ n ∧ ∀ c ∈ w, p c = true := by
  intro n
  induction n with
  | zero =>
    intro w h
    simp only [Regex.opt, Lang] at h
    subst h
    simp
  | succ n ih =>
    intro w h
    simp only [Regex.opt, Lang] at h
    rcases h with rfl | ⟨u, v, rfl, ⟨c, rfl, hp⟩, hv⟩
    · simp
    · obtain ⟨hl, hall⟩ := ih v hv
      refine ⟨by simp; omega, ?_⟩
      intro x hx
      rcases List.mem_append.1 hx with hx | hx
      · rw [List.mem_singleton.1 hx]; exact hp
      · exact hall x hx

theorem lang_copies_cls {p : Char → Bool} {k : Regex} : ∀ (n : Nat) (w : List Char),
    Lang (Regex.copies (.cls p) n k) w →
      ∃ x y, w = x ++ y ∧ x.length = n ∧ (∀ c ∈ x, p c = true) ∧ Lang k y := by
  intro n
  induction n with
  | zero =>
    intro w h
    exact ⟨[], w, rfl, rfl, by simp, h⟩
  | succ n ih =>
    intro w h
    simp only [Regex.copies, Lang] at h
    obtain ⟨u, v, rfl, ⟨c, rfl, hp⟩, hv⟩ := h
    obtain ⟨x, y, rfl, hl, hall, hk⟩ := ih v hv
    refine ⟨c :: x, y, by simp, by simp [hl], ?_, hk⟩
    intro z hz
    rcases List.mem_cons.1 hz with hz | hz
    · rw [hz]; exact hp
    · exact hall z hz

theorem lang_rep_cls {p : Char → Bool} {lo hi : Nat} {w : List Char}
    (h : Lang (Regex.rep (.cls p) lo hi) w) :
    lo ≤ w.length ∧ w.length ≤ lo + (hi - lo) ∧ ∀ c ∈ w, p c = true := by
  obtain ⟨x, y, rfl, hl, hx, hy⟩ := lang_copies_cls lo w h
  obtain ⟨hyl, hyall⟩ := lang_opt_cls _ y hy
  refine ⟨by simp; omega, by simp; omega, ?_⟩
  intro c hc
  rcases List.mem_append.1 hc with hc | hc
  · exact hx c hc
  · exact hyall c hc

end regexp

namespace ddns
open regexp

theorem isWord_ne_dot {c : Char} (h : isWord c = true) : c ≠ '.' := by
  rintro rfl
  exact absurd h (by decide)

theorem isWord_ne_hyphen {c : Char} (h : isWord c = true) : c ≠ '-' := by
  rintro rfl
  exact absurd h (by decide)

theorem isWordOrHyphen_ne_dot {c : Char} (h : isWordOrHyphen c = true) : c ≠ '.' := by
  rintro rfl
  exact absurd h (by decide)

theorem isDot_eq {c : Char} (h : isDot c = true) : c = '.' := by
  simpa [isDot] using h

/-- The texts of group 1: word characters and dots only, empty or ending in a dot. -/
theorem lang_sub {w : List Char} (h : Lang Domain.sub w) :
    (∀ c ∈ w, isWord c = true ∨ c = '.') ∧ (w = [] ∨ ∃ p, w = p ++ ['.']) := by
  obtain ⟨ws, rfl, hws⟩ := h
  have piece : ∀ u ∈ ws, (∀ c ∈ u, isWord c = true ∨ c = '.') ∧ ∃ p, u = p ++ ['.'] := by
    intro u hu
    obtain ⟨x, y, rfl, hx, ⟨c, rfl, hc⟩⟩ := hws u hu
    have hxw := lang_star_cls false hx
    rw [isDot_eq hc]
    refine ⟨?_, x, rfl⟩
    intro z hz
    rcases List.mem_append.1 hz with hz | hz
    · exact Or.inl (hxw z hz)
    · exact Or.inr (List.mem_singleton.1 hz)
  clear hws
  constructor
  · intro c hc
    obtain ⟨u, hu, hcu⟩ := List.mem_flatten.1 hc
    exact (piece u hu).1 c hcu
  · induction ws with
    | nil => exact Or.inl rfl
    | cons u rest ih =>
      right
      obtain ⟨p, hp⟩ := (piece u (List.mem_cons_self _ _)).2
      rcases ih (fun v hv => piece v (List.mem_cons_of_mem _ hv)) with h | ⟨q, hq⟩
      · exact ⟨p, by simp [h, hp]⟩
      · exact ⟨u ++ q, by simp [hq]⟩

/-- The texts of group 2: a non-empty label of word characters and hyphens, a dot, and two
to five word characters. -/
theorem lang_root {w : List Char} (h : Lang Domain.root w) :
    ∃ a b, w = a ++ '.' :: b ∧ a ≠ [] ∧ (∀ c ∈ a, isWordOrHyphen c = true) ∧
      (∀ c ∈ b, isWord c = true) ∧ 2 ≤ b.length ∧ b.length ≤ 5 := by
  obtain ⟨u, v, rfl, hu, y, z, rfl, ⟨c, rfl, hc⟩, hz⟩ := h
  obtain ⟨hne, hall⟩ := lang_plus_cls hu
  obtain ⟨h2, h5, hw⟩ := lang_rep_cls hz
  rw [isDot_eq hc]
  exact ⟨u, z, by simp, hne, hall, hw, h2, h5⟩

theorem count_dot_root {a b : List Char} (ha : ∀ c ∈ a, isWordOrHyphen c = true)
    (hb : ∀ c ∈ b, isWord c = true) : (a ++ '.' :: b).count '.' = 1 := by
  have h₁ : a.count '.' = 0 :=
    List.count_eq_zero.2 (fun hm => isWordOrHyphen_ne_dot (ha _ hm) rfl)
  have h₂ : b.count '.' = 0 :=
    List.count_eq_zero.2 (fun hm => isWord_ne_dot (hb _ hm) rfl)
  simp [List.count_append, List.count_cons, h₁, h₂]

end ddns

/-! ## The matcher finds every text of the expression's language -/

namespace regexp

/-- A repetition that has as much fuel as text left gives the same threads with more fuel. -/
theorem iter_fuel (f : Thread → List Thread) (g : Bool) :
    ∀ (n : Nat) (t : Thread), t.rest.length ≤ n → iter f g (n + 1) t = iter f g n t := by
  intro n
  induction n with
  | zero =>
    intro t ht
    have h0 : t.rest.length = 0 := Nat.le_zero.1 ht
    cases g <;> simp [iter, h0]
  | succ n ih =>
    intro t ht
    have hstep : ((f t).filter (fun u => decide (u.rest.length < t.rest.length))).flatMap
          (iter f g (n + 1))
        = ((f t).filter (fun u => decide (u.rest.length < t.rest.length))).flatMap
          (iter f g n) := by
      apply List.flatMap_congr
      intro u hu
      have hlt : u.rest.length < t.rest.length := by
        simpa using (List.mem_filter.1 hu).2
      exact ih u (by omega)
    rw [iter, hstep]
    rfl

theorem self_mem_iter (f : Thread → List Thread) (g : Bool) (n : Nat) (t : Thread) :
    t ∈ iter f g n t := by
  cases n with
  | zero => simp [iter]
  | succ n => cases g <;> simp [iter]

theorem mem_iter_succ {f : Thread → List Thread} {g : Bool} {n : Nat} {t v u : Thread}
    (hv : v ∈ f t) (hlt : v.rest.length < t.rest.length) (hu : u ∈ iter f g n v) :
    u ∈ iter f g (n + 1) t := by
  have hm : u ∈ ((f t).filter (fun x => decide (x.rest.length < t.rest.length))).flatMap
      (iter f g n) :=
    List.mem_flatMap.2 ⟨v, List.mem_filter.2 ⟨hv, by simpa using hlt⟩, hu⟩
  cases g
  · simp only [iter, Bool.false_eq_true, if_false]
    exact List.mem_cons_of_mem _ hm
  · simp only [iter, if_true]
    exact List.mem_append_left _ hm

theorem iter_complete {f : Thread → List Thread} {P : List Char → Prop} (g : Bool)
    (hf : ∀ (w : List Char), P w → ∀ (t : Thread) (r : List Char), t.rest = w ++ r →
      ∃ u ∈ f t, u.rest = r ∧ u.pos = t.pos + w.length) :
    ∀ (ws : List (List Char)), (∀ w ∈ ws, P w) → ∀ (n : Nat) (t : Thread) (r : List Char),
      t.rest = ws.flatten ++ r → t.rest.length ≤ n →
      ∃ u ∈ iter f g n t, u.rest = r ∧ u.pos = t.pos + ws.flatten.length := by
  intro ws
  induction ws with
  | nil =>
    intro _ n t r ht _
    exact ⟨t, self_mem_iter f g n t, by simpa using ht, by simp⟩
  | cons w ws ih =>
    intro hP n t r ht hn
    have hws : ∀ x ∈ ws, P x := fun x hx => hP x (List.mem_cons_of_mem _ hx)
    by_cases hw : w = []
    · subst hw
      simpa using ih hws n t r (by simpa using ht) hn
    · have hlen : 0 < w.length := List.length_pos.2 hw
      obtain ⟨v, hv, hvr, hvp⟩ := hf w (hP w (List.mem_cons_self _ _)) t (ws.flatten ++ r)
        (by simpa using ht)
      have htl : t.rest.length = w.length + v.rest.length := by
        rw [ht, hvr]; simp
      cases n with
      | zero => omega
      | succ m =>
        obtain ⟨u, hu, hur, hup⟩ := ih hws m v r hvr (by omega)
        refine ⟨u, mem_iter_succ hv (by omega) hu, hur, ?_⟩
        rw [hup, hvp]
        simp
        omega

theorem run_complete : ∀ (re : Regex), re.anchorFree = true → ∀ (w : List Char), Lang re w →
    ∀ (t : Thread) (r : List Char), t.rest = w ++ r →
      ∃ u ∈ run re t, u.rest = r ∧ u.pos = t.pos + w.length := by
  intro re
  induction re with
  | empty =>
    intro _ w hw t r ht
    simp only [Lang] at hw
    subst hw
    exact ⟨t, by simp [run], by simpa using ht, by simp⟩
  | cls p =>
    intro _ w hw t r ht
    obtain ⟨c, rfl, hp⟩ := hw
    simp only [List.singleton_append] at ht
    refine ⟨{ t with pos := t.pos + 1, rest := r }, ?_, rfl, by simp⟩
    simp [run, ht, hp]
  | bol => intro h; simp [Regex.anchorFree] at h
  | eol => intro h; simp [Regex.anchorFree] at h
  | cat a b iha ihb =>
    intro h w hw t r ht
    simp only [Regex.anchorFree, Bool.and_eq_true] at h
    obtain ⟨x, y, rfl, hx, hy⟩ := hw
    obtain ⟨v, hv, hvr, hvp⟩ := iha h.1 x hx t (y ++ r) (by simpa using ht)
    obtain ⟨u, hu, hur, hup⟩ := ihb h.2 y hy v r hvr
    refine ⟨u, ?_, hur, ?_⟩
    · simp only [run, List.mem_flatMap]
      exact ⟨v, hv, hu⟩
    · rw [hup, hvp]; simp; omega
  | star g a ih =>
    intro h w hw t r ht
    simp only [Regex.anchorFree] at h
    obtain ⟨ws, rfl, hws⟩ := hw
    simpa [run] using iter_complete g (ih h) ws hws t.rest.length t r ht (Nat.le_refl _)
  | plus g a ih =>
    intro h w hw t r ht
    simp only [Regex.anchorFree] at h
    obtain ⟨x, ws, rfl, hx, hws⟩ := hw
    obtain ⟨v, hv, hvr, hvp⟩ := ih h x hx t (ws.flatten ++ r) (by simpa using ht)
    obtain ⟨u, hu, hur, hup⟩ := iter_complete g (ih h) ws hws v.rest.length v r hvr
      (Nat.le_refl _)
    refine ⟨u, ?_, hur, ?_⟩
    · simp only [run, List.mem_flatMap]
      exact ⟨v, hv, hu⟩
    · rw [hup, hvp]; simp; omega
  | quest g a ih =>
    intro h w hw t r ht
    simp only [Regex.anchorFree] at h
    rcases hw with rfl | hw
    · refine ⟨t, ?_, by simpa using ht, by simp⟩
      cases g <;> simp [run]
    · obtain ⟨u, hu, hur, hup⟩ := ih h w hw t r ht
      refine ⟨u, ?_, hur, hup⟩
      cases g <;> simp [run, hu]
  | group i a ih =>
    intro h w hw t r ht
    simp only [Regex.anchorFree] at h
    obtain ⟨u, hu, hur, hup⟩ := ih h w hw t r ht
    refine ⟨{ u with cap := fun j => if j = i then some (t.pos, u.pos) else u.cap j }, ?_,
      hur, hup⟩
    simp only [run, List.mem_map]
    exact ⟨u, hu, rfl⟩

end regexp

namespace ddns
open regexp

/-- The strings the `Domain` pattern matches are the texts of group 1 followed by the texts
of group 2. -/
theorem find_Domain_iff (d : String) :
    FindStringSubmatch Domain d ≠ [] ↔
      ∃ w₁ w₂, d.data = w₁ ++ w₂ ∧ Lang Domain.sub w₁ ∧ Lang Domain.root w₂ := by
  constructor
  · intro h
    obtain ⟨w₁, w₂, hs, _, l₁, l₂⟩ := find_Domain d h
    exact ⟨w₁, w₂, hs, l₁, l₂⟩
  · rintro ⟨w₁, w₂, hs, l₁, l₂⟩
    have hrun : ∃ u, u ∈ run Domain ⟨0, d.data, fun _ => none⟩ := by
      have hl : Lang (.cat (.group 1 Domain.sub) (.group 2 Domain.root)) (w₁ ++ w₂) :=
        ⟨w₁, w₂, rfl, l₁, l₂⟩
      obtain ⟨u, hu, hur, _⟩ := run_complete _ (by decide) _ hl ⟨0, d.data, fun _ => none⟩ []
        (by simpa using hs)
      simp only [run, List.mem_flatMap] at hu
      obtain ⟨v, hv, hu⟩ := hu
      refine ⟨u, ?_⟩
      simp only [Domain, run, List.mem_flatMap, if_true, List.mem_singleton, exists_eq_left]
      exact ⟨v, hv, u, hu, by simp [hur]⟩
    obtain ⟨u, hu⟩ := hrun
    have hhead : ∃ t, matchAt Domain d.data 0 = some (0, t) := by
      cases hr : run Domain ⟨0, d.data, fun _ => none⟩ with
      | nil => rw [hr] at hu; simp at hu
      | cons t ts => exact ⟨t, by simp [matchAt, hr]⟩
    obtain ⟨t, ht⟩ := hhead
    have hfind : (List.range (d.data.length + 1)).findSome? (matchAt Domain d.data)
        = some (0, t) := by
      rw [List.range_succ_eq_map, List.findSome?_cons, ht]
    unfold FindStringSubmatch
    rw [hfind]
    have hn : Domain.numSubexp = 2 := by decide
    simp [hn, List.range_succ]

end ddns

/-! ## Valid UTF-8 is copied as it is -/

namespace gostring

theorem toNat_ofNat_lt {n : Nat} (h : n < 256) : (UInt8.ofNat n).toNat = n := by
  show n % 256 = n
  exact Nat.mod_eq_of_lt h

theorem char_valid (c : Char) : c.toNat < 0xD800 ∨ (0xDFFF < c.toNat ∧ c.toNat < 0x110000) :=
  c.valid

theorem utf8_append (s t : String) : utf8 (s ++ t) = utf8 s ++ utf8 t := by
  simp [utf8, String.data_append]

theorem utf8Char_ascii {c : Char} (h : c.toNat < 0x80) : utf8Char c = [UInt8.ofNat c.toNat] := by
  simp only [utf8Char, if_pos h]

theorem runeWidth_two {b0 b1 : UInt8} (lo hi : Nat) (rest : Bytes) (h0 : 0x80 ≤ b0.toNat)
    (hl : lead b0.toNat = (2, lo, hi)) (h1 : lo ≤ b1.toNat ∧ b1.toNat ≤ hi) :
    runeWidth (b0 :: b1 :: rest) = 2 := by
  simp [runeWidth, hl, h1, Nat.not_lt.2 h0]

theorem runeWidth_three {b0 b1 b2 : UInt8} {lo hi : Nat} (rest : Bytes) (h0 : 0x80 ≤ b0.toNat)
    (hl : lead b0.toNat = (3, lo, hi)) (h1 : lo ≤ b1.toNat ∧ b1.toNat ≤ hi)
    (h2 : isCont b2 = true) : runeWidth (b0 :: b1 :: b2 :: rest) = 3 := by
  simp [runeWidth, hl, h1, h2, Nat.not_lt.2 h0]

theorem runeWidth_four {b0 b1 b2 b3 : UInt8} {lo hi : Nat} (rest : Bytes)
    (h0 : 0x80 ≤ b0.toNat) (hl : lead b0.toNat = (4, lo, hi))
    (h1 : lo ≤ b1.toNat ∧ b1.toNat ≤ hi) (h2 : isCont b2 = true) (h3 : isCont b3 = true) :
    runeWidth (b0 :: b1 :: b2 :: b3 :: rest) = 4 := by
  simp [runeWidth, hl, h1, h2, h3, Nat.not_lt.2 h0]

theorem isCont_ofNat {n : Nat} (h : n < 0x40) : isCont (UInt8.ofNat (0x80 + n)) = true := by
  have e := toNat_ofNat_lt (show 0x80 + n < 256 by omega)
  simp only [isCont, e, Bool.and_eq_true, decide_eq_true_eq]
  omega

theorem lead_three (x : Nat) (h : 0xE0 ≤ x ∧ x ≤ 0xEF) :
    lead x = (3, if x = 0xE0 then 0xA0 else 0x80, if x = 0xED then 0x9F else 0xBF) := by
  unfold lead
  rw [if_neg (by omega)]
  by_cases h0 : x = 0xE0
  · subst h0; rfl
  · rw [if_neg h0, if_neg h0]
    by_cases hd : x = 0xED
    · subst hd; rfl
    · rw [if_neg hd, if_neg hd, if_pos (by omega)]

theorem lead_four (x : Nat) (h : 0xF0 ≤ x ∧ x ≤ 0xF4) :
    lead x = (4, if x = 0xF0 then 0x90 else 0x80, if x = 0xF4 then 0x8F else 0xBF) := by
  unfold lead
  rw [if_neg (by omega), if_neg (by omega), if_neg (by omega), if_neg (by omega)]
  by_cases h0 : x = 0xF0
  · subst h0; rfl
  · rw [if_neg h0, if_neg h0]
    by_cases h4 : x = 0xF4
    · subst h4; rfl
    · simp only [h4, if_false]
      rw [if_pos (by omega)]

/-- The encoding of a character from U+0080 on is a lead byte and one to three further
bytes, and is recognised as one valid sequence of that length. -/
theorem runeWidth_utf8Char (c : Char) (rest : Bytes) (h : 0x80 ≤ c.toNat) :
    ∃ b bs, utf8Char c = b :: bs ∧ 0x80 ≤ b.toNat ∧ bs ≠ [] ∧
      runeWidth (b :: (bs ++ rest)) = bs.length + 1 := by
  have hv := char_valid c
  by_cases h2 : c.toNat < 0x800
  · have e0 : (UInt8.ofNat (0xC0 + c.toNat / 0x40)).toNat = 0xC0 + c.toNat / 0x40 :=
      toNat_ofNat_lt (by omega)
    have e1 : (UInt8.ofNat (0x80 + c.toNat % 0x40)).toNat = 0x80 + c.toNat % 0x40 :=
      toNat_ofNat_lt (by omega)
    refine ⟨_, _, by simp only [utf8Char, if_neg (Nat.not_lt.2 h), if_pos h2]; rfl,
      by rw [e0]; omega, by simp, ?_⟩
    exact runeWidth_two 0x80 0xBF rest (by rw [e0]; omega)
      (by rw [e0]; unfold lead; rw [if_pos (by omega)]) (by rw [e1]; omega)
  · by_cases h3 : c.toNat < 0x10000
    · have e0 : (UInt8.ofNat (0xE0 + c.toNat / 0x1000)).toNat = 0xE0 + c.toNat / 0x1000 :=
        toNat_ofNat_lt (by omega)
      have e1 : (UInt8.ofNat (0x80 + c.toNat / 0x40 % 0x40)).toNat
          = 0x80 + c.toNat / 0x40 % 0x40 := toNat_ofNat_lt (by omega)
      refine ⟨_, _, by simp only [utf8Char, if_neg (Nat.not_lt.2 h), if_neg h2, if_pos h3]; rfl,
        by rw [e0]; omega, by simp, ?_⟩
      refine runeWidth_three rest (by rw [e0]; omega)
        (by rw [e0]; exact lead_three _ (by omega)) ?_ (isCont_ofNat (by omega))
      rw [e1]
      constructor
      · split <;> omega
      · split <;> omega
    · have e0 : (UInt8.ofNat (0xF0 + c.toNat / 0x40000)).toNat = 0xF0 + c.toNat / 0x40000 :=
        toNat_ofNat_lt (by omega)
      have e1 : (UInt8.ofNat (0x80 + c.toNat / 0x1000 % 0x40)).toNat
          = 0x80 + c.toNat / 0x1000 % 0x40 := toNat_ofNat_lt (by omega)
      refine ⟨_, _, by simp only [utf8Char, if_neg (Nat.not_lt.2 h), if_neg h2, if_neg h3]; rfl,
        by rw [e0]; omega, by simp, ?_⟩
      refine runeWidth_four rest (by rw [e0]; omega)
        (by rw [e0]; exact lead_four _ (by omega)) ?_ (isCont_ofNat (by omega))
        (isCont_ofNat (by omega))
      rw [e1]
      constructor
      · split <;> omega
      · split <;> omega

theorem coerce_pending : ∀ (bs rest : Bytes),
    coerce bs.length (bs ++ rest) = bs ++ coerce 0 rest := by
  intro bs
  induction bs with
  | nil =>
    intro rest
    cases rest <;> rfl
  | cons b bs ih =>
    intro rest
    rw [List.length_cons, List.cons_append, List.cons_append]
    show b :: coerce bs.length (bs ++ rest) = b :: (bs ++ coerce 0 rest)
    rw [ih]

theorem coerce_ascii {b : UInt8} (h : b.toNat < 0x80) (rest : Bytes) :
    coerce 0 (b :: rest) = b :: coerce 0 rest := by
  simp only [coerce, if_pos h]

theorem coerce_lead {b : UInt8} {bs : Bytes} (h : 0x80 ≤ b.toNat) {n : Nat}
    (hw : runeWidth (b :: bs) = n + 1) : coerce 0 (b :: bs) = b :: coerce n bs := by
  simp only [coerce, if_neg (Nat.not_lt.2 h), hw]
  rw [if_neg (by omega)]
  rfl

theorem coerce_utf8Char (c : Char) (rest : Bytes) :
    coerce 0 (utf8Char c ++ rest) = utf8Char c ++ coerce 0 rest := by
  by_cases h : c.toNat < 0x80
  · rw [utf8Char_ascii h, List.singleton_append, List.singleton_append]
    exact coerce_ascii (by rw [toNat_ofNat_lt (by omega)]; exact h) rest
  · obtain ⟨b, bs, hc, hb, _, hw⟩ := runeWidth_utf8Char c rest (Nat.not_lt.1 h)
    rw [hc, List.cons_append, List.cons_append, coerce_lead hb hw, coerce_pending]

theorem coerce_chars : ∀ (w : List Char) (rest : Bytes),
    coerce 0 (w.flatMap utf8Char ++ rest) = w.flatMap utf8Char ++ coerce 0 rest := by
  intro w
  induction w with
  | nil => intro rest; rfl
  | cons c w ih =>
    intro rest
    simp only [List.flatMap_cons, List.append_assoc, coerce_utf8Char, ih]

/-- A valid UTF-8 string is written, and read back, as it is. -/
theorem toValidUTF8_utf8 (s : String) : toValidUTF8 (utf8 s) = utf8 s := by
  have h := coerce_chars s.data []
  simpa [toValidUTF8, utf8, coerce] using h

end gostring

/-! ## Reading the bodies that postMessage builds -/

namespace JSON

theorem toNat_of_plain {c : Char} (h : plainChar c = true) :
    c.toNat ≠ 34 ∧ c.toNat ≠ 92 ∧ 32 ≤ c.toNat := by
  simp only [plainChar, Bool.and_eq_true, bne_iff_ne, ne_eq, decide_eq_true_eq] at h
  obtain ⟨⟨h₁, h₂⟩, h₃⟩ := h
  refine ⟨?_, ?_, h₃⟩
  · intro e
    apply h₁
    rw [← Char.ofNat_toNat c, e]
  · intro e
    apply h₂
    rw [← Char.ofNat_toNat c, e]

theorem scan_ascii {b : UInt8} (h₁ : b.toNat ≠ 34) (h₂ : b.toNat ≠ 92) (h₃ : 32 ≤ b.toNat)
    (h₄ : b.toNat < 128) (acc : List Piece) (rest : Bytes) :
    scan .plain acc (b :: rest) = scan .plain (.lit b :: acc) rest := by
  simp only [scan, if_neg h₁, if_neg h₂, if_neg (Nat.not_lt.2 h₃), if_pos h₄]

theorem scan_lead {b : UInt8} {bs : Bytes} (h : 128 ≤ b.toNat) {n : Nat}
    (hw : runeWidth (b :: bs) = n + 1) (acc : List Piece) :
    scan .plain acc (b :: bs) = scan (.copy n) (.lit b :: acc) bs := by
  simp only [scan, hw]
  rw [if_neg (by omega), if_neg (by omega), if_neg (by omega), if_neg (by omega),
    if_neg (by omega)]
  rfl

theorem scan_copy_one (b : UInt8) (acc : List Piece) (rest : Bytes) :
    scan (.copy 1) acc (b :: rest) = scan .plain (.lit b :: acc) rest := by
  simp only [scan, Nat.le_refl, if_true]

theorem scan_copy_more (n : Nat) (b : UInt8) (acc : List Piece) (rest : Bytes) :
    scan (.copy (n + 2)) acc (b :: rest) = scan (.copy (n + 1)) (.lit b :: acc) rest := by
  simp only [scan]
  rw [if_neg (by omega)]
  rfl

theorem scan_copy : ∀ (bs : Bytes), bs ≠ [] → ∀ (acc : List Piece) (rest : Bytes),
    scan (.copy bs.length) acc (bs ++ rest)
      = scan .plain ((bs.map Piece.lit).reverse ++ acc) rest := by
  intro bs
  induction bs with
  | nil => intro h; exact absurd rfl h
  | cons b bs ih =>
    intro _ acc rest
    cases bs with
    | nil =>
      rw [List.singleton_append]
      exact scan_copy_one b acc rest
    | cons b' bs' =>
      have step := ih (by simp) (.lit b :: acc) rest
      rw [List.cons_append, List.length_cons, List.length_cons, scan_copy_more]
      rw [List.length_cons] at step
      rw [step]
      simp

theorem scan_char {c : Char} (h : plainChar c = true) (acc : List Piece) (rest : Bytes) :
    scan .plain acc (utf8Char c ++ rest)
      = scan .plain (((utf8Char c).map Piece.lit).reverse ++ acc) rest := by
  obtain ⟨h₁, h₂, h₃⟩ := toNat_of_plain h
  by_cases ha : c.toNat < 0x80
  · have e := toNat_ofNat_lt (show c.toNat < 256 by omega)
    rw [utf8Char_ascii ha, List.singleton_append,
      scan_ascii (by rw [e]; exact h₁) (by rw [e]; exact h₂) (by rw [e]; exact h₃)
        (by rw [e]; exact ha)]
    rfl
  · obtain ⟨b, bs, hc, hb, hne, hw⟩ := runeWidth_utf8Char c rest (Nat.not_lt.1 ha)
    rw [hc, List.cons_append, scan_lead hb hw, scan_copy bs hne]
    simp

theorem scan_plain : ∀ (w : List Char) (x rest : Bytes), (∀ c ∈ w, plainChar c = true) →
    scan .plain (x.map Piece.lit).reverse (w.flatMap utf8Char ++ rest)
      = scan .plain ((x ++ w.flatMap utf8Char).map Piece.lit).reverse rest := by
  intro w
  induction w with
  | nil => intro x rest _; simp
  | cons c w ih =>
    intro x rest h
    have hc := h c (List.mem_cons_self _ _)
    have hw : ∀ d ∈ w, plainChar d = true := fun d hd => h d (List.mem_cons_of_mem _ hd)
    have step := ih (x ++ utf8Char c) rest hw
    simp only [List.flatMap_cons, List.append_assoc]
    rw [scan_char hc]
    simpa using step

theorem scan_newline (x rest : Bytes) :
    scan .plain (x.map Piece.lit).reverse (92 :: 110 :: rest)
      = scan .plain ((x ++ [10]).map Piece.lit).reverse rest := by
  have e : scan .plain (x.map Piece.lit).reverse (92 :: 110 :: rest)
      = scan .plain (.lit 10 :: (x.map Piece.lit).reverse) rest := by
    simp only [scan, simpleEscape]
    rw [if_neg (by decide), if_pos (by decide), if_neg (by decide), if_neg (by decide),
      if_neg (by decide), if_neg (by decide), if_neg (by decide), if_neg (by decide),
      if_pos (by decide)]
  rw [e]
  simp

theorem scan_quote (x rest : Bytes) :
    scan .plain (x.map Piece.lit).reverse (34 :: rest) = some (x.map Piece.lit, rest) := by
  simp only [scan]
  rw [if_pos (by decide)]
  simp

theorem text_lit : ∀ x : Bytes, text (x.map Piece.lit) = x := by
  intro x
  induction x with
  | nil => rfl
  | cons c x ih => simp [text, ih]

theorem stringLit_plain (s : String) (rest : Bytes) (h : ∀ c ∈ s.data, plainChar c = true) :
    stringLit (34 :: (utf8 s ++ 34 :: rest)) = some (utf8 s, rest) := by
  have h₁ := scan_plain s.data [] (34 :: rest) h
  simp only [List.map_nil, List.reverse_nil, List.nil_append] at h₁
  simp only [stringLit, if_true, utf8, h₁, scan_quote, Option.map_some', text_lit]

theorem stringLit_newline (s₁ s₂ : String) (rest : Bytes)
    (h₁ : ∀ c ∈ s₁.data, plainChar c = true) (h₂ : ∀ c ∈ s₂.data, plainChar c = true) :
    stringLit (34 :: (utf8 s₁ ++ 92 :: 110 :: (utf8 s₂ ++ 34 :: rest)))
      = some (utf8 s₁ ++ 10 :: utf8 s₂, rest) := by
  have e₁ := scan_plain s₁.data [] (92 :: 110 :: (utf8 s₂ ++ 34 :: rest)) h₁
  simp only [List.map_nil, List.reverse_nil, List.nil_append] at e₁
  have e₂ := scan_plain s₂.data (utf8 s₁ ++ [10]) (34 :: rest) h₂
  simp only [utf8] at e₁ e₂ ⊢
  simp only [stringLit, if_true, e₁, scan_newline, e₂, scan_quote, Option.map_some', text_lit]
  simp

theorem skipWs_cons {b : UInt8} (h : isWs b = false) (bs : Bytes) :
    skipWs (b :: bs) = b :: bs := by
  simp only [skipWs, h, Bool.false_eq_true, if_false]

theorem expect_cons (b : UInt8) (bs : Bytes) : expect b (b :: bs) = some bs := by
  simp only [expect, if_true]

/-- The text of the opening brace, the name `content` in quotes, the colon, a literal and
the closing brace reads as the one-member object with value `v` as soon as the literal
reads as `v`. -/
theorem contentObject_of_stringLit (w v : Bytes)
    (h : stringLit (34 :: (w ++ [34, 125])) = some (v, [125])) :
    contentObject (123 :: 34 :: (utf8 "content" ++ 34 :: (58 :: 34 :: (w ++ [34, 125]))))
      = some v := by
  have hk : stringLit (34 :: (utf8 "content" ++ 34 :: (58 :: 34 :: (w ++ [34, 125]))))
      = some (utf8 "content", 58 :: 34 :: (w ++ [34, 125])) :=
    stringLit_plain _ _ (by decide)
  unfold contentObject
  rw [skipWs_cons (by decide), expect_cons, Option.some_bind, skipWs_cons (by decide), hk,
    Option.some_bind]
  simp only [ne_eq, not_true_eq_false, if_false]
  rw [skipWs_cons (by decide), expect_cons, Option.some_bind, skipWs_cons (by decide), h,
    Option.some_bind]
  simp only []
  rw [skipWs_cons (by decide), expect_cons, Option.some_bind]
  simp only [skipWs, if_true]

end JSON

namespace ddns

theorem postMessageBody_eq (content : Bytes) :
    postMessageBody content
      = 123 :: 34 :: (utf8 "content" ++ 34 :: (58 :: 34 :: (content ++ [34, 125]))) := by
  have e₁ : utf8 "\x7b\"content\":\"" = 123 :: 34 :: (utf8 "content" ++ [34, 58, 34]) := by
    decide
  have e₂ : utf8 "\"\x7d" = [34, 125] := by decide
  simp [postMessageBody, e₁, e₂]

theorem postMessageBody_plain (content : String)
    (h : ∀ c ∈ content.data, JSON.plainChar c = true) :
    JSON.contentObject (postMessageBody (utf8 content)) = some (utf8 content) := by
  rw [postMessageBody_eq]
  exact JSON.contentObject_of_stringLit _ _ (JSON.stringLit_plain _ _ h)

theorem postMessageBody_update (domain my_ip : String)
    (h₁ : ∀ c ∈ domain.data, JSON.plainChar c = true)
    (h₂ : ∀ c ∈ my_ip.data, JSON.plainChar c = true) :
    JSON.contentObject (postMessageBody (updateMessage domain (utf8 my_ip)))
      = some (utf8 ("DNSを更新しました。\n" ++ domain ++ " : " ++ my_ip)) := by
  have hw₂ : ∀ c ∈ (domain ++ " : " ++ my_ip).data, JSON.plainChar c = true := by
    intro c hc
    simp only [String.data_append, List.mem_append] at hc
    rcases hc with (hc | hc) | hc
    · exact h₁ c hc
    · exact (show ∀ c ∈ " : ".data, JSON.plainChar c = true by decide) c hc
    · exact h₂ c hc
  have hlit := JSON.stringLit_newline "DNSを更新しました。" (domain ++ " : " ++ my_ip) [125]
    (by decide) hw₂
  have hmsg : updateMessage domain (utf8 my_ip)
      = utf8 "DNSを更新しました。" ++ 92 :: 110 :: utf8 (domain ++ " : " ++ my_ip) := by
    have e : utf8 "DNSを更新しました。\\n" = utf8 "DNSを更新しました。" ++ [92, 110] := by decide
    simp [updateMessage, e, utf8_append]
  have hres : utf8 ("DNSを更新しました。\n" ++ domain ++ " : " ++ my_ip)
      = utf8 "DNSを更新しました。" ++ 10 :: utf8 (domain ++ " : " ++ my_ip) := by
    have e : utf8 "DNSを更新しました。\n" = utf8 "DNSを更新しました。" ++ [10] := by decide
    simp [e, utf8_append]
  rw [postMessageBody_eq, hmsg, hres]
  apply JSON.contentObject_of_stringLit
  simpa using hlit

end ddns

/-! ## Runs of `main` -/

namespace ddns

@[simp] theorem filter_printed_isUpdate (out : List Bytes) :
    (printed out).filter Event.isUpdate = [] := by
  simp [printed, List.filter_eq_nil_iff, Event.isUpdate]

@[simp] theorem filter_printed_isPost (out : List Bytes) :
    (printed out).filter Event.isPost = [] := by
  simp [printed, List.filter_eq_nil_iff, Event.isPost]

@[simp] theorem filter_printed_isZoneLookup (out : List Bytes) :
    (printed out).filter Event.isZoneLookup = [] := by
  simp [printed, List.filter_eq_nil_iff, Event.isZoneLookup]

@[simp] theorem filter_printed_isRecordLookup (out : List Bytes) :
    (printed out).filter Event.isRecordLookup = [] := by
  simp [printed, List.filter_eq_nil_iff, Event.isRecordLookup]

theorem updateRecord_other_events (w : World) (Token ZoneID RecordID : String)
    (data : RecordInfo) :
    (updateRecord w Token ZoneID RecordID data).2.filter Event.isPost = [] ∧
    (updateRecord w Token ZoneID RecordID data).2.filter Event.isZoneLookup = [] ∧
    (updateRecord w Token ZoneID RecordID data).2.filter Event.isRecordLookup = [] := by
  unfold updateRecord
  cases w.newRequest "PUT" (updateURL ZoneID RecordID) with
  | some err => simp [List.filter_cons, Event.isPost, Event.isZoneLookup, Event.isRecordLookup]
  | none =>
    cases w.clientDo (updateRequest Token ZoneID RecordID data) <;>
      simp [List.filter_cons, Event.isPost, Event.isZoneLookup, Event.isRecordLookup]

/-- When `http.NewRequest` accepts the URL, `updateRecord` hands exactly one request to
`client.Do`, whatever comes of it. -/
theorem updateRecord_sends (w : World) (Token ZoneID RecordID : String) (data : RecordInfo)
    (h : w.newRequest "PUT" (updateURL ZoneID RecordID) = none) :
    (updateRecord w Token ZoneID RecordID data).2.filter Event.isUpdate
      = [Event.updateRequest (updateRequest Token ZoneID RecordID data)] := by
  unfold updateRecord
  rw [h]
  cases w.clientDo (updateRequest Token ZoneID RecordID data) <;>
    simp [List.filter_cons, Event.isUpdate]

/-- When `http.NewRequest` refuses the URL, `updateRecord` returns the error and sends
nothing. -/
theorem updateRecord_refused (w : World) (Token ZoneID RecordID : String) (data : RecordInfo)
    (err : GoError) (h : w.newRequest "PUT" (updateURL ZoneID RecordID) = some err) :
    (updateRecord w Token ZoneID RecordID data).1 = some err ∧
    (updateRecord w Token ZoneID RecordID data).2.filter Event.isUpdate = [] := by
  unfold updateRecord
  rw [h]
  simp [List.filter_cons, Event.isUpdate]

/-- In a run that reaches the update, the update requests of the run are those of
`updateRecord`. -/
theorem main_updates_of_diff (w : World)
    (sub_domain root_domain zone_id now_IP record_id : String)
    (hmatch : captures (config w).Cloudflare.Domain = .ok (sub_domain, root_domain))
    (hzone : (getZoneID w (config w).Cloudflare.Token root_domain).1 = (zone_id, none))
    (hrec : (getRecord w (config w).Cloudflare.Token zone_id (config w).Cloudflare.Domain).1
      = (now_IP, record_id, none))
    (hdiff : utf8 now_IP ≠ my_ip w) :
    updates (main w) = (updateRecord w (config w).Cloudflare.Token zone_id record_id
      (updateData (config w).Cloudflare.Domain (my_ip w))).2.filter Event.isUpdate ∧
    (main w).exit = .code 0 := by
  simp only [config, my_ip] at hmatch hzone hrec hdiff ⊢
  cases hu : (updateRecord w (readToken w).1.Cloudflare.Token zone_id record_id
      (updateData (readToken w).1.Cloudflare.Domain (getIP w (readToken w).1.ReturnIP).1.1)).1 <;>
    simp [main, updates, hmatch, hzone, hrec, hdiff, hu, List.filter_cons, Event.isUpdate]

/-- In a run that reaches the update, and whose update returns no error, `postMessage` is
called once, with the update message. -/
theorem main_posts_of_update (w : World)
    (sub_domain root_domain zone_id now_IP record_id : String)
    (hmatch : captures (config w).Cloudflare.Domain = .ok (sub_domain, root_domain))
    (hzone : (getZoneID w (config w).Cloudflare.Token root_domain).1 = (zone_id, none))
    (hrec : (getRecord w (config w).Cloudflare.Token zone_id (config w).Cloudflare.Domain).1
      = (now_IP, record_id, none))
    (hdiff : utf8 now_IP ≠ my_ip w)
    (hu : (updateRecord w (config w).Cloudflare.Token zone_id record_id
      (updateData (config w).Cloudflare.Domain (my_ip w))).1 = none) :
    posts (main w) = [Event.postMessage (config w).WebHook
      (updateMessage (config w).Cloudflare.Domain (my_ip w))] := by
  have hother := (updateRecord_other_events w (config w).Cloudflare.Token zone_id record_id
    (updateData (config w).Cloudflare.Domain (my_ip w))).1
  simp only [config, my_ip] at hmatch hzone hrec hdiff hu hother ⊢
  simp [main, posts, hmatch, hzone, hrec, hdiff, hu, hother, List.filter_cons, Event.isPost]

/-- The request `updateRecord` builds for the record of `main`, field by field. -/
theorem updateRequest_updateData (Token ZoneID RecordID domain : String) (my_ip : Bytes) :
    updateRequest Token ZoneID RecordID (updateData domain my_ip)
      = { Method := "PUT",
          URL := CloudflareURL ++ "zones/" ++ ZoneID ++ "/dns_records/" ++ RecordID,
          Header := [("Content-Type", "application/json"), ("Authorization", "Bearer " ++ Token)],
          Body :=
            { type := utf8 "A", name := utf8 domain, content := toValidUTF8 my_ip,
              ttl := 3600 } } := by
  simp [updateRequest, updateURL, jsonMarshal, updateData, toValidUTF8_utf8]

end ddns

/-! ## The captures of `main` -/

namespace ddns
open regexp

theorem sliceTo_len (s : String) : sliceTo s (len s) = s := by
  cases s
  simp [sliceTo, len]

theorem captures_of_find {d m sub_domain root_domain : String}
    (h : FindStringSubmatch Domain d = [m, sub_domain, root_domain]) :
    captures d = .ok (sub_domain, root_domain) := by
  simp [captures, h, sliceTo_len]

theorem captures_of_no_match {d : String} (h : FindStringSubmatch Domain d = []) :
    captures d = .error (.indexOutOfRange 2 0) := by
  simp [captures, h]

/-- A text with a hyphen that is followed by two or more dots is not matched. -/
theorem no_match_of_early_hyphen (d : String) (a b : List Char)
    (hd : d.data = a ++ '-' :: b) (hb : 2 ≤ b.count '.') :
    FindStringSubmatch Domain d = [] := by
  by_contra hne
  obtain ⟨w₁, w₂, hs, _, l₁, l₂⟩ := find_Domain d hne
  obtain ⟨hsub, _⟩ := lang_sub l₁
  obtain ⟨x, y, rfl, _, hx, hy, _, _⟩ := lang_root l₂
  have hcount := count_dot_root hx hy
  rw [hd] at hs
  rcases List.append_eq_append_iff.1 hs with ⟨a', rfl, h₂⟩ | ⟨c', rfl, h₂⟩
  · cases a' with
    | nil =>
      simp only [List.nil_append] at h₂
      rw [← h₂, List.count_cons] at hcount
      simp at hcount
      omega
    | cons c a'' =>
      simp only [List.cons_append, List.cons.injEq] at h₂
      obtain ⟨rfl, _⟩ := h₂
      rcases hsub '-' (by simp) with h | h
      · exact isWord_ne_hyphen h rfl
      · exact absurd h (by decide)
  · rw [h₂, List.count_append, List.count_cons] at hcount
    simp at hcount
    omega

theorem getZoneID_loop_first (apex : String) (z : ZoneEntry) (post : List ZoneEntry) :
    ∀ pre : List ZoneEntry, (∀ y ∈ pre, y.Name ≠ apex) → z.Name = apex →
      getZoneID.loop apex (pre ++ z :: post) = (z.ID, none) := by
  intro pre
  induction pre with
  | nil => intro _ hz; simp [getZoneID.loop, hz]
  | cons y pre ih =>
    intro hpre hz
    have hy : y.Name ≠ apex := hpre y (List.mem_cons_self _ _)
    simp only [List.cons_append, getZoneID.loop, if_neg hy]
    exact ih (fun v hv => hpre v (List.mem_cons_of_mem _ hv)) hz

theorem getZoneID_loop_err (apex : String) : ∀ Result : List ZoneEntry,
    (getZoneID.loop apex Result).2 ≠ none ↔ ∀ z ∈ Result, z.Name ≠ apex := by
  intro Result
  induction Result with
  | nil => simp [getZoneID.loop]
  | cons y rest ih =>
    by_cases hy : y.Name = apex
    · simp [getZoneID.loop, hy]
    · simp only [getZoneID.loop, if_neg hy, ih]
      simp [hy]

theorem getZoneID_loop_not_found (apex : String) (Result : List ZoneEntry)
    (h : (getZoneID.loop apex Result).2 ≠ none) :
    getZoneID.loop apex Result = ("", some "Domain not found in zone.") := by
  induction Result with
  | nil => rfl
  | cons y rest ih =>
    by_cases hy : y.Name = apex
    · simp [getZoneID.loop, hy] at h
    · simp only [getZoneID.loop, if_neg hy] at h ⊢
      exact ih h

theorem getRecord_loop_first (target : String) (r : RecordEntry) (post : List RecordEntry) :
    ∀ pre : List RecordEntry, (∀ y ∈ pre, y.Name ≠ target) → r.Name = target →
      getRecord.loop target (pre ++ r :: post) = (r.Content, r.ID, none) := by
  intro pre
  induction pre with
  | nil => intro _ hr; simp [getRecord.loop, hr]
  | cons y pre ih =>
    intro hpre hr
    have hy : y.Name ≠ target := hpre y (List.mem_cons_self _ _)
    simp only [List.cons_append, getRecord.loop, if_neg hy]
    exact ih (fun v hv => hpre v (List.mem_cons_of_mem _ hv)) hr

theorem getRecord_loop_err (target : String) : ∀ Result : List RecordEntry,
    (getRecord.loop target Result).2.2 ≠ none ↔ ∀ r ∈ Result, r.Name ≠ target := by
  intro Result
  induction Result with
  | nil => simp [getRecord.loop]
  | cons y rest ih =>
    by_cases hy : y.Name = target
    · simp [getRecord.loop, hy]
    · simp only [getRecord.loop, if_neg hy, ih]
      simp [hy]

theorem getRecord_loop_not_found (target : String) (Result : List RecordEntry)
    (h : (getRecord.loop target Result).2.2 ≠ none) :
    getRecord.loop target Result = ("", "", some "SubDomain not found in zone.") := by
  induction Result with
  | nil => rfl
  | cons y rest ih =>
    by_cases hy : y.Name = target
    · simp [getRecord.loop, hy] at h
    · simp only [getRecord.loop, if_neg hy] at h ⊢
      exact ih h

end ddns

/-! ## The claims -/

namespace ddns
open regexp

/-- C1: for every string `d` that matches the `Domain` pattern, the match is the list
`[d, sub_domain, root_domain]`, `main` takes the two captures from it without a fault, and
joining the prefix and the apex gives back `d`. -/
theorem C1_split_rejoin (d : String) (hmatch : FindStringSubmatch Domain d ≠ []) :
    ∃ sub_domain root_domain,
      FindStringSubmatch Domain d = [d, sub_domain, root_domain] ∧
      captures d = .ok (sub_domain, root_domain) ∧
      sub_domain ++ root_domain = d := by
  obtain ⟨w₁, w₂, hs, hf, _, _⟩ := find_Domain d hmatch
  refine ⟨⟨w₁⟩, ⟨w₂⟩, hf, captures_of_find hf, ?_⟩
  cases d
  simp only at hs
  subst hs
  rfl

theorem C1_split_rejoin_witness :
    FindStringSubmatch Domain "home.example.com" ≠ [] ∧
    ∃ sub_domain root_domain,
      FindStringSubmatch Domain "home.example.com"
        = ["home.example.com", sub_domain, root_domain] ∧
      captures "home.example.com" = .ok (sub_domain, root_domain) ∧
      sub_domain ++ root_domain = "home.example.com" :=
  ⟨by decide, C1_split_rejoin "home.example.com" (by decide)⟩

/-- C2: for every string `d` that matches the `Domain` pattern, `root_domain` is the suffix of
`d` right after its second-to-last dot (all of `d`, with an empty prefix, when `d` has one
dot only): `d` is `sub_domain` followed by `root_domain`, `root_domain` has exactly one dot,
its last label is two to five word characters, and `sub_domain` is empty or ends in a dot.
`example.com` gives the empty prefix, `home.example.com` gives `home.` and `example.com`. -/
theorem C2_root_is_last_two_labels (d : String) (hmatch : FindStringSubmatch Domain d ≠ []) :
    ∃ sub_domain root_domain,
      captures d = .ok (sub_domain, root_domain) ∧
      d.data = sub_domain.data ++ root_domain.data ∧
      ((sub_domain = "" ∧ root_domain = d ∧ d.data.count '.' = 1) ∨
        (∃ p, sub_domain.data = p ++ ['.'] ∧ d.data = p ++ '.' :: root_domain.data ∧
          2 ≤ d.data.count '.')) ∧
      root_domain.data.count '.' = 1 ∧
      (∃ label tld, root_domain.data = label ++ '.' :: tld ∧ label ≠ [] ∧
        '.' ∉ label ∧ (∀ c ∈ tld, isWord c = true) ∧ 2 ≤ tld.length ∧ tld.length ≤ 5) ∧
      (sub_domain = "" ∨ ∃ p, sub_domain.data = p ++ ['.']) ∧
      captures "example.com" = .ok ("", "example.com") ∧
      captures "home.example.com" = .ok ("home.", "example.com") := by
  obtain ⟨w₁, w₂, hs, hf, l₁, l₂⟩ := find_Domain d hmatch
  obtain ⟨_, hend⟩ := lang_sub l₁
  obtain ⟨x, y, rfl, hx0, hx, hy, h2, h5⟩ := lang_root l₂
  have hcount := count_dot_root hx hy
  have hsub : w₁ = [] ∨ ∃ p, w₁ = p ++ ['.'] := hend
  refine ⟨⟨w₁⟩, ⟨x ++ '.' :: y⟩, captures_of_find hf, hs, ?_, hcount,
    ⟨x, y, rfl, hx0, fun hm => isWordOrHyphen_ne_dot (hx _ hm) rfl, hy, h2, h5⟩, ?_,
    by decide, by decide⟩
  · rcases hsub with rfl | ⟨p, rfl⟩
    · left
      simp only [List.nil_append] at hs
      refine ⟨rfl, ?_, by rw [hs]; exact hcount⟩
      cases d
      simp only at hs
      rw [hs]
    · right
      refine ⟨p, rfl, by rw [hs]; simp, ?_⟩
      rw [hs, List.count_append, hcount]
      simp
  · rcases hsub with rfl | ⟨p, rfl⟩
    · exact Or.inl rfl
    · exact Or.inr ⟨p, rfl⟩

theorem C2_root_is_last_two_labels_witness :
    FindStringSubmatch Domain "a.b.example.co" ≠ [] ∧
    ∃ sub_domain root_domain,
      captures "a.b.example.co" = .ok (sub_domain, root_domain) ∧
      "a.b.example.co".data = sub_domain.data ++ root_domain.data ∧
      ((sub_domain = "" ∧ root_domain = "a.b.example.co" ∧
          "a.b.example.co".data.count '.' = 1) ∨
        (∃ p, sub_domain.data = p ++ ['.'] ∧
          "a.b.example.co".data = p ++ '.' :: root_domain.data ∧
          2 ≤ "a.b.example.co".data.count '.')) ∧
      root_domain.data.count '.' = 1 ∧
      (∃ label tld, root_domain.data = label ++ '.' :: tld ∧ label ≠ [] ∧
        '.' ∉ label ∧ (∀ c ∈ tld, isWord c = true) ∧ 2 ≤ tld.length ∧ tld.length ≤ 5) ∧
      (sub_domain = "" ∨ ∃ p, sub_domain.data = p ++ ['.']) ∧
      captures "example.com" = .ok ("", "example.com") ∧
      captures "home.example.com" = .ok ("home.", "example.com") :=
  ⟨by decide, C2_root_is_last_two_labels "a.b.example.co" (by decide)⟩

/-- C3: after a successful transport, `getZoneID` returns the ID of the first entry of the
zone list whose `Name` is the apex domain, compared as strings character by character, with
no error; it returns an error exactly when no entry has that name, and that error is
"Domain not found in zone." with an empty id. -/
theorem C3_getZoneID_first_match (w : World) (Token apex : String) (Result : List ZoneEntry)
    (htransport : w.listZones Token = .ok Result) :
    (∀ pre z post, Result = pre ++ z :: post → (∀ y ∈ pre, y.Name ≠ apex) → z.Name = apex →
      (getZoneID w Token apex).1 = (z.ID, none)) ∧
    ((getZoneID w Token apex).1 = ("", some "Domain not found in zone.") ↔
      ∀ z ∈ Result, z.Name ≠ apex) ∧
    ((getZoneID w Token apex).1.2 = none ↔ ∃ z ∈ Result, z.Name = apex) ∧
    getZoneID.loop "example.com" [⟨"Example.com", "Z0"⟩, ⟨"example.com", "Z1"⟩,
      ⟨"example.com", "Z2"⟩] = ("Z1", none) := by
  have hrun : (getZoneID w Token apex).1 = getZoneID.loop apex Result := by
    simp [getZoneID, htransport]
  rw [hrun]
  have herr := getZoneID_loop_err apex Result
  refine ⟨?_, ?_, ?_, by decide⟩
  · rintro pre z post rfl hpre hz
    exact getZoneID_loop_first apex z post pre hpre hz
  · constructor
    · intro h
      exact herr.1 (by rw [h]; simp)
    · intro h
      exact getZoneID_loop_not_found apex Result (herr.2 h)
  · constructor
    · intro h
      by_contra hno
      exact (herr.2 (fun z hz hn => hno ⟨z, hz, hn⟩)) h
    · rintro ⟨z, hz, hn⟩
      by_contra h
      exact herr.1 h z hz hn

theorem C3_getZoneID_first_match_witness :
    (exampleWorld "home.example.com" (.ok (utf8 "5.6.7.8"))).listZones "TOKEN"
      = .ok [⟨"example.com", "Z1"⟩] ∧
    (getZoneID (exampleWorld "home.example.com" (.ok (utf8 "5.6.7.8"))) "TOKEN" "example.com").1
      = ("Z1", none) :=
  ⟨rfl, (C3_getZoneID_first_match (exampleWorld "home.example.com" (.ok (utf8 "5.6.7.8"))) "TOKEN"
    "example.com" [⟨"example.com", "Z1"⟩] rfl).1 [] ⟨"example.com", "Z1"⟩ [] rfl
    (by simp) rfl⟩

/-- C4: after a successful transport, `getRecord` returns the `Content` and the `ID` of one
and the same entry, the first entry of the record list whose `Name` is the target domain,
with no error; it returns an error exactly when no entry has that name, and that error is
"SubDomain not found in zone." with empty content and id. -/
theorem C4_getRecord_first_match (w : World) (Token Zoneid target : String)
    (Result : List RecordEntry) (htransport : w.listRecords Token Zoneid = .ok Result) :
    (∀ pre r post, Result = pre ++ r :: post → (∀ y ∈ pre, y.Name ≠ target) →
      r.Name = target → (getRecord w Token Zoneid target).1 = (r.Content, r.ID, none)) ∧
    ((getRecord w Token Zoneid target).1 = ("", "", some "SubDomain not found in zone.") ↔
      ∀ r ∈ Result, r.Name ≠ target) ∧
    ((getRecord w Token Zoneid target).1.2.2 = none ↔ ∃ r ∈ Result, r.Name = target) ∧
    getRecord.loop "home.example.com" [⟨"example.com", "R0", "9.9.9.9"⟩,
      ⟨"home.example.com", "R1", "1.2.3.4"⟩, ⟨"home.example.com", "R2", "4.3.2.1"⟩]
      = ("1.2.3.4", "R1", none) := by
  have hrun : (getRecord w Token Zoneid target).1 = getRecord.loop target Result := by
    simp [getRecord, htransport]
  rw [hrun]
  have herr := getRecord_loop_err target Result
  refine ⟨?_, ?_, ?_, by decide⟩
  · rintro pre r post rfl hpre hr
    exact getRecord_loop_first target r post pre hpre hr
  · constructor
    · intro h
      exact herr.1 (by rw [h]; simp)
    · intro h
      exact getRecord_loop_not_found target Result (herr.2 h)
  · constructor
    · intro h
      by_contra hno
      exact (herr.2 (fun r hr hn => hno ⟨r, hr, hn⟩)) h
    · rintro ⟨r, hr, hn⟩
      by_contra h
      exact herr.1 h r hr hn

theorem C4_getRecord_first_match_witness :
    (exampleWorld "home.example.com" (.ok (utf8 "5.6.7.8"))).listRecords "TOKEN" "Z1"
      = .ok [⟨"home.example.com", "R1", "1.2.3.4"⟩] ∧
    (getRecord (exampleWorld "home.example.com" (.ok (utf8 "5.6.7.8"))) "TOKEN" "Z1"
      "home.example.com").1 = ("1.2.3.4", "R1", none) :=
  ⟨rfl, (C4_getRecord_first_match (exampleWorld "home.example.com" (.ok (utf8 "5.6.7.8"))) "TOKEN"
    "Z1" "home.example.com" [⟨"home.example.com", "R1", "1.2.3.4"⟩] rfl).1 []
    ⟨"home.example.com", "R1", "1.2.3.4"⟩ [] rfl (by simp) rfl⟩

/-- C5: in a run whose domain matches the pattern and whose zone and record resolution
succeed, when the observed address equals the published content no update request is
issued, `postMessage` is called exactly once, with the no-update message, and the exit code
is 0. -/
theorem C5_no_update_when_ip_unchanged (w : World)
    (sub_domain root_domain zone_id now_IP record_id : String)
    (hmatch : captures (config w).Cloudflare.Domain = .ok (sub_domain, root_domain))
    (hzone : (getZoneID w (config w).Cloudflare.Token root_domain).1 = (zone_id, none))
    (hrec : (getRecord w (config w).Cloudflare.Token zone_id (config w).Cloudflare.Domain).1
      = (now_IP, record_id, none))
    (hsame : my_ip w = utf8 now_IP) :
    updates (main w) = [] ∧
    posts (main w)
      = [Event.postMessage (config w).WebHook (utf8 "DNS更新はありませんでした。")] ∧
    (main w).exit = .code 0 := by
  simp only [config, my_ip] at hmatch hzone hrec hsame
  simp [main, updates, posts, config, hmatch, hzone, hrec, hsame, List.filter_cons,
    Event.isUpdate, Event.isPost, noUpdateMessage]

theorem C5_no_update_when_ip_unchanged_witness :
    captures (config (exampleWorld "home.example.com" (.ok (utf8 "1.2.3.4")))).Cloudflare.Domain
      = .ok ("home.", "example.com") ∧
    (getZoneID (exampleWorld "home.example.com" (.ok (utf8 "1.2.3.4"))) "TOKEN"
      "example.com").1 = ("Z1", none) ∧
    (getRecord (exampleWorld "home.example.com" (.ok (utf8 "1.2.3.4"))) "TOKEN" "Z1"
      "home.example.com").1 = ("1.2.3.4", "R1", none) ∧
    my_ip (exampleWorld "home.example.com" (.ok (utf8 "1.2.3.4"))) = utf8 "1.2.3.4" ∧
    updates (main (exampleWorld "home.example.com" (.ok (utf8 "1.2.3.4")))) = [] ∧
    posts (main (exampleWorld "home.example.com" (.ok (utf8 "1.2.3.4"))))
      = [Event.postMessage "https://hook.example/" (utf8 "DNS更新はありませんでした。")] ∧
    (main (exampleWorld "home.example.com" (.ok (utf8 "1.2.3.4")))).exit = .code 0 :=
  ⟨by decide, by decide, by decide, by decide,
    C5_no_update_when_ip_unchanged (exampleWorld "home.example.com" (.ok (utf8 "1.2.3.4")))
      "home." "example.com" "Z1" "1.2.3.4" "R1" (by decide) (by decide) (by decide)
      (by decide)⟩

/-- C6, counterexample: two runs whose domain matches, whose zone and record resolution
succeed and whose observed address differs from the published content.  In the first the
record id holds a line break, `http.NewRequest` refuses the update URL and no update
request is issued.  In the second the observed address is the single byte `0xFF`, and the
content field of the update request is U+FFFD, not the observed address. -/
theorem C6_update_not_as_claimed :
    (captures (config (ctlRecordWorld (.ok (utf8 "5.6.7.8")))).Cloudflare.Domain
        = .ok ("home.", "example.com") ∧
      (getZoneID (ctlRecordWorld (.ok (utf8 "5.6.7.8"))) "TOKEN" "example.com").1
        = ("Z1", none) ∧
      (getRecord (ctlRecordWorld (.ok (utf8 "5.6.7.8"))) "TOKEN" "Z1" "home.example.com").1
        = ("1.2.3.4", "R\n1", none) ∧
      utf8 "1.2.3.4" ≠ my_ip (ctlRecordWorld (.ok (utf8 "5.6.7.8"))) ∧
      updates (main (ctlRecordWorld (.ok (utf8 "5.6.7.8")))) = []) ∧
    (captures (config (exampleWorld "home.example.com" (.ok [0xFF]))).Cloudflare.Domain
        = .ok ("home.", "example.com") ∧
      (getZoneID (exampleWorld "home.example.com" (.ok [0xFF])) "TOKEN" "example.com").1
        = ("Z1", none) ∧
      (getRecord (exampleWorld "home.example.com" (.ok [0xFF])) "TOKEN" "Z1"
        "home.example.com").1 = ("1.2.3.4", "R1", none) ∧
      my_ip (exampleWorld "home.example.com" (.ok [0xFF])) = [0xFF] ∧
      updates (main (exampleWorld "home.example.com" (.ok [0xFF])))
        = [Event.updateRequest
            { Method := "PUT",
              URL := "https://api.cloudflare.com/client/v4/zones/Z1/dns_records/R1",
              Header := [("Content-Type", "application/json"),
                ("Authorization", "Bearer TOKEN")],
              Body :=
                { type := utf8 "A", name := utf8 "home.example.com",
                  content := [0xEF, 0xBF, 0xBD], ttl := 3600 } }]) := by
  refine ⟨⟨by decide, by decide, by decide, by decide, by decide⟩,
    ⟨by decide, by decide, by decide, by decide, by decide⟩⟩

/-- C6, amended: in a run whose domain matches the pattern, whose zone and record
resolution succeed, whose observed address differs from the published content and in which
`http.NewRequest` accepts the update URL, exactly one update request is issued (handed to
`client.Do`): a `PUT` to the URL of the resolved zone id and record id, whose body has type "A", the configured
domain as name, ttl 3600 and as content the observed address with U+FFFD for every byte
that is not valid UTF-8, which is the observed address itself when that is valid UTF-8.
When the update returns no error `postMessage` is called exactly once, with a message that
contains the configured domain and the observed address.  In the specification's example
the update is for record `R1` with content `5.6.7.8`. -/
theorem C6_update_when_ip_differs (w : World)
    (sub_domain root_domain zone_id now_IP record_id : String)
    (hmatch : captures (config w).Cloudflare.Domain = .ok (sub_domain, root_domain))
    (hzone : (getZoneID w (config w).Cloudflare.Token root_domain).1 = (zone_id, none))
    (hrec : (getRecord w (config w).Cloudflare.Token zone_id (config w).Cloudflare.Domain).1
      = (now_IP, record_id, none))
    (hdiff : utf8 now_IP ≠ my_ip w)
    (hreq : w.newRequest "PUT"
      (CloudflareURL ++ "zones/" ++ zone_id ++ "/dns_records/" ++ record_id) = none) :
    updates (main w) = [Event.updateRequest
      { Method := "PUT",
        URL := CloudflareURL ++ "zones/" ++ zone_id ++ "/dns_records/" ++ record_id,
        Header := [("Content-Type", "application/json"),
          ("Authorization", "Bearer " ++ (config w).Cloudflare.Token)],
        Body :=
          { type := utf8 "A", name := utf8 (config w).Cloudflare.Domain,
            content := toValidUTF8 (my_ip w), ttl := 3600 } }] ∧
    (∀ ip : String, my_ip w = utf8 ip → toValidUTF8 (my_ip w) = utf8 ip) ∧
    ((updateRecord w (config w).Cloudflare.Token zone_id record_id
        (updateData (config w).Cloudflare.Domain (my_ip w))).1 = none →
      ∃ message, posts (main w) = [Event.postMessage (config w).WebHook message] ∧
        message = utf8 "DNSを更新しました。\\n" ++ utf8 (config w).Cloudflare.Domain
          ++ utf8 " : " ++ my_ip w ∧
        utf8 (config w).Cloudflare.Domain <:+: message ∧
        my_ip w <:+: message) ∧
    updates (main (exampleWorld "home.example.com" (.ok (utf8 "5.6.7.8"))))
      = [Event.updateRequest
          { Method := "PUT",
            URL := "https://api.cloudflare.com/client/v4/zones/Z1/dns_records/R1",
            Header := [("Content-Type", "application/json"),
              ("Authorization", "Bearer TOKEN")],
            Body :=
              { type := utf8 "A", name := utf8 "home.example.com",
                content := utf8 "5.6.7.8", ttl := 3600 } }] ∧
    posts (main (exampleWorld "home.example.com" (.ok (utf8 "5.6.7.8"))))
      = [Event.postMessage "https://hook.example/"
          (utf8 "DNSを更新しました。\\nhome.example.com : 5.6.7.8")] := by
  have hsend := updateRecord_sends w (config w).Cloudflare.Token zone_id record_id
    (updateData (config w).Cloudflare.Domain (my_ip w)) hreq
  refine ⟨?_, ?_, ?_, by decide, by decide⟩
  · rw [(main_updates_of_diff w sub_domain root_domain zone_id now_IP record_id hmatch hzone
      hrec hdiff).1, hsend, updateRequest_updateData]
  · intro ip hip
    rw [hip, toValidUTF8_utf8]
  · intro hu
    refine ⟨_, main_posts_of_update w sub_domain root_domain zone_id now_IP record_id hmatch
      hzone hrec hdiff hu, rfl, ?_, ?_⟩
    · exact ⟨utf8 "DNSを更新しました。\\n", utf8 " : " ++ my_ip w, by simp [updateMessage]⟩
    · exact ⟨utf8 "DNSを更新しました。\\n" ++ utf8 (config w).Cloudflare.Domain ++ utf8 " : ",
        [], by simp [updateMessage]⟩

theorem C6_update_when_ip_differs_witness :
    captures
      (config (exampleWorld "home.example.com" (.ok (utf8 "5.6.7.8")))).Cloudflare.Domain
      = .ok ("home.", "example.com") ∧
    (getZoneID (exampleWorld "home.example.com" (.ok (utf8 "5.6.7.8"))) "TOKEN"
      "example.com").1 = ("Z1", none) ∧
    (getRecord (exampleWorld "home.example.com" (.ok (utf8 "5.6.7.8"))) "TOKEN" "Z1"
      "home.example.com").1 = ("1.2.3.4", "R1", none) ∧
    utf8 "1.2.3.4" ≠ my_ip (exampleWorld "home.example.com" (.ok (utf8 "5.6.7.8"))) ∧
    (exampleWorld "home.example.com" (.ok (utf8 "5.6.7.8"))).newRequest "PUT"
      (CloudflareURL ++ "zones/" ++ "Z1" ++ "/dns_records/" ++ "R1") = none ∧
    updates (main (exampleWorld "home.example.com" (.ok (utf8 "5.6.7.8"))))
      = [Event.updateRequest
          { Method := "PUT",
            URL := "https://api.cloudflare.com/client/v4/zones/Z1/dns_records/R1",
            Header := [("Content-Type", "application/json"),
              ("Authorization", "Bearer TOKEN")],
            Body :=
              { type := utf8 "A", name := utf8 "home.example.com",
                content := utf8 "5.6.7.8", ttl := 3600 } }] :=
  ⟨by decide, by decide, by decide, by decide, rfl,
    (C6_update_when_ip_differs (exampleWorld "home.example.com" (.ok (utf8 "5.6.7.8")))
      "home." "example.com" "Z1" "1.2.3.4" "R1" (by decide) (by decide) (by decide)
      (by decide) rfl).1⟩

/-- C7, counterexample: for the text made of one double quote, of one backslash or of one
line break the body `postMessage` builds is not a well-formed JSON text; for the update
message of `main` the value of `content` does not decode to the message; and for the text
made of the byte `0xFF`, which is not valid UTF-8, the value decodes to U+FFFD. -/
theorem C7_body_not_escaped :
    JSON.contentObject (postMessageBody (utf8 "\"")) = none ∧
    JSON.contentObject (postMessageBody (utf8 "\\")) = none ∧
    JSON.contentObject (postMessageBody (utf8 "\n")) = none ∧
    JSON.contentObject (postMessageBody (updateMessage "home.example.com" (utf8 "5.6.7.8")))
      ≠ some (updateMessage "home.example.com" (utf8 "5.6.7.8")) ∧
    JSON.contentObject (postMessageBody [0xFF]) = some [0xEF, 0xBF, 0xBD] ∧
    JSON.contentObject (postMessageBody [0xFF]) ≠ some [0xFF] := by
  refine ⟨by decide, by decide, by decide, by decide, by decide, by decide⟩

/-- C7, amended: for every message text that is valid UTF-8 and has no double quote, no
backslash and no control character, the body `postMessage` builds is a well-formed JSON
object with the single member `content`, whose value decodes to the text (so for the
no-update message); and for the update message of `main`, built from such a domain and
address, it is a well-formed JSON object with the single member `content`, whose value
decodes to the message with a line break in the place of the two characters backslash and
`n`. -/
theorem C7_body_of_plain_text (content domain my_ip : String)
    (hcontent : ∀ c ∈ content.data, JSON.plainChar c = true)
    (hdomain : ∀ c ∈ domain.data, JSON.plainChar c = true)
    (hip : ∀ c ∈ my_ip.data, JSON.plainChar c = true) :
    JSON.contentObject (postMessageBody (utf8 content)) = some (utf8 content) ∧
    JSON.contentObject (postMessageBody noUpdateMessage) = some noUpdateMessage ∧
    noUpdateMessage = utf8 "DNS更新はありませんでした。" ∧
    JSON.contentObject (postMessageBody (updateMessage domain (utf8 my_ip)))
      = some (utf8 ("DNSを更新しました。\n" ++ domain ++ " : " ++ my_ip)) ∧
    updateMessage domain (utf8 my_ip)
      = utf8 ("DNSを更新しました。\\n" ++ domain ++ " : " ++ my_ip) :=
  ⟨postMessageBody_plain content hcontent, postMessageBody_plain _ (by decide), rfl,
    postMessageBody_update domain my_ip hdomain hip, by simp [updateMessage, utf8_append]⟩

theorem C7_body_of_plain_text_witness :
    (∀ c ∈ "IP: 5.6.7.8 é".data, JSON.plainChar c = true) ∧
    (∀ c ∈ "home.example.com".data, JSON.plainChar c = true) ∧
    (∀ c ∈ "5.6.7.8".data, JSON.plainChar c = true) ∧
    JSON.contentObject (postMessageBody (utf8 "IP: 5.6.7.8 é")) = some (utf8 "IP: 5.6.7.8 é") ∧
    JSON.contentObject (postMessageBody (updateMessage "home.example.com" (utf8 "5.6.7.8")))
      = some (utf8 ("DNSを更新しました。\n" ++ "home.example.com" ++ " : " ++ "5.6.7.8")) :=
  ⟨by decide, by decide, by decide,
    (C7_body_of_plain_text "IP: 5.6.7.8 é" "home.example.com" "5.6.7.8" (by decide)
      (by decide) (by decide)).1,
    (C7_body_of_plain_text "IP: 5.6.7.8 é" "home.example.com" "5.6.7.8" (by decide)
      (by decide) (by decide)).2.2.2.1⟩

/-- C8: in a run whose domain matches the pattern the exit code is 1 exactly when zone
resolution returns an error or, zone resolution having succeeded, record resolution returns
an error, and it is 0 exactly when both succeed (whatever the update does); after a failed
zone resolution there is no record lookup, no update request and no notification, and after
a failed record resolution there is no update request and no notification. -/
theorem C8_exit_codes (w : World)
    (sub_domain root_domain zone_id now_IP record_id : String) (zerr rerr : Option GoError)
    (hmatch : captures (config w).Cloudflare.Domain = .ok (sub_domain, root_domain))
    (hzone : (getZoneID w (config w).Cloudflare.Token root_domain).1 = (zone_id, zerr))
    (hrec : (getRecord w (config w).Cloudflare.Token zone_id (config w).Cloudflare.Domain).1
      = (now_IP, record_id, rerr)) :
    ((main w).exit = .code 1 ↔ (zerr ≠ none ∨ (zerr = none ∧ rerr ≠ none))) ∧
    ((main w).exit = .code 0 ↔ (zerr = none ∧ rerr = none)) ∧
    (zerr ≠ none →
      recordLookups (main w) = [] ∧ updates (main w) = [] ∧ posts (main w) = []) ∧
    (zerr = none → rerr ≠ none →
      recordLookups (main w) = [Event.getRecord (config w).Cloudflare.Token zone_id
        (config w).Cloudflare.Domain] ∧ updates (main w) = [] ∧ posts (main w) = []) := by
  simp only [config] at hmatch hzone hrec
  have hz1 := congrArg Prod.fst hzone
  have hz2 := congrArg Prod.snd hzone
  have hr1 := congrArg (fun x => x.1) hrec
  have hr2 := congrArg (fun x => x.2.1) hrec
  have hr3 := congrArg (fun x => x.2.2) hrec
  simp only at hz1 hz2 hr1 hr2 hr3
  cases zerr with
  | some e =>
    simp [main, config, recordLookups, updates, posts, hmatch, hz1, hz2, List.filter_cons,
      Event.isRecordLookup, Event.isUpdate, Event.isPost]
  | none =>
    cases rerr with
    | some e =>
      simp [main, config, recordLookups, updates, posts, hmatch, hz1, hz2, hr1, hr2, hr3,
        List.filter_cons, Event.isRecordLookup, Event.isUpdate, Event.isPost]
    | none =>
      simp only [main, config, hmatch, hz1, hz2, hr1, hr2, hr3]
      split
      · simp
      · split <;> simp

theorem C8_exit_codes_witness :
    captures
      (config (exampleWorld "home.example.org" (.ok (utf8 "5.6.7.8")))).Cloudflare.Domain
      = .ok ("home.", "example.org") ∧
    (getZoneID (exampleWorld "home.example.org" (.ok (utf8 "5.6.7.8"))) "TOKEN"
      "example.org").1 = ("", some "Domain not found in zone.") ∧
    (main (exampleWorld "home.example.org" (.ok (utf8 "5.6.7.8")))).exit = .code 1 ∧
    recordLookups (main (exampleWorld "home.example.org" (.ok (utf8 "5.6.7.8")))) = [] :=
  ⟨by decide, by decide,
    (C8_exit_codes (exampleWorld "home.example.org" (.ok (utf8 "5.6.7.8"))) "home."
      "example.org" "" "" "" (some "Domain not found in zone.")
      (some "SubDomain not found in zone.") (by decide) (by decide) (by decide)).1.2
      (Or.inl (by simp)),
    ((C8_exit_codes (exampleWorld "home.example.org" (.ok (utf8 "5.6.7.8"))) "home."
      "example.org" "" "" "" (some "Domain not found in zone.")
      (some "SubDomain not found in zone.") (by decide) (by decide) (by decide)).2.2.1
      (by simp)).1⟩

/-- C9, counterexample: a run in which the GET of the IP endpoint fails, the domain matches
and zone and record resolution succeed with the non-empty content `1.2.3.4`, but the record
id holds a line break: `http.NewRequest` refuses the update URL and no update request is
issued. -/
theorem C9_update_not_always_sent :
    (ctlRecordWorld (.error "connection refused")).httpGet
      (config (ctlRecordWorld (.error "connection refused"))).ReturnIP
      = .error "connection refused" ∧
    captures (config (ctlRecordWorld (.error "connection refused"))).Cloudflare.Domain
      = .ok ("home.", "example.com") ∧
    (getZoneID (ctlRecordWorld (.error "connection refused")) "TOKEN" "example.com").1
      = ("Z1", none) ∧
    (getRecord (ctlRecordWorld (.error "connection refused")) "TOKEN" "Z1"
      "home.example.com").1 = ("1.2.3.4", "R\n1", none) ∧
    updates (main (ctlRecordWorld (.error "connection refused"))) = [] := by
  refine ⟨by decide, by decide, by decide, by decide, by decide⟩

/-- C9, amended: when the GET of the IP endpoint fails, `getIP` returns the empty string
with the error, and `main` goes on: in every such run whose domain matches, whose zone and
record resolution succeed with a non-empty published content and in which
`http.NewRequest` accepts the update URL, exactly one update request is issued (handed to
`client.Do`), a `PUT` to the URL of the resolved zone id and record id whose content field
is the empty string, and the run ends with exit code 0. -/
theorem C9_failed_ip_fetch_overwrites (w : World) (err : GoError)
    (sub_domain root_domain zone_id now_IP record_id : String)
    (hfetch : w.httpGet (config w).ReturnIP = .error err)
    (hmatch : captures (config w).Cloudflare.Domain = .ok (sub_domain, root_domain))
    (hzone : (getZoneID w (config w).Cloudflare.Token root_domain).1 = (zone_id, none))
    (hrec : (getRecord w (config w).Cloudflare.Token zone_id (config w).Cloudflare.Domain).1
      = (now_IP, record_id, none))
    (hpublished : now_IP ≠ "")
    (hreq : w.newRequest "PUT"
      (CloudflareURL ++ "zones/" ++ zone_id ++ "/dns_records/" ++ record_id) = none) :
    (getIP w (config w).ReturnIP).1 = ([], some err) ∧
    updates (main w) = [Event.updateRequest
      { Method := "PUT",
        URL := CloudflareURL ++ "zones/" ++ zone_id ++ "/dns_records/" ++ record_id,
        Header := [("Content-Type", "application/json"),
          ("Authorization", "Bearer " ++ (config w).Cloudflare.Token)],
        Body :=
          { type := utf8 "A", name := utf8 (config w).Cloudflare.Domain,
            content := [], ttl := 3600 } }] ∧
    (main w).exit = .code 0 := by
  have hip : (getIP w (config w).ReturnIP).1 = ([], some err) := by
    simp [getIP, hfetch]
  have hmy : my_ip w = [] := by
    simp only [my_ip, hip]
  have hne : utf8 now_IP ≠ my_ip w := by
    rw [hmy]
    intro h
    apply hpublished
    cases now_IP with
    | mk data =>
      cases data with
      | nil => rfl
      | cons c cs =>
        have hc : utf8Char c ≠ [] := by
          unfold utf8Char
          split
          · simp
          · split
            · simp
            · split <;> simp
        simp only [utf8, List.flatMap_cons, List.append_eq_nil] at h
        exact absurd h.1 hc
  have hsend := updateRecord_sends w (config w).Cloudflare.Token zone_id record_id
    (updateData (config w).Cloudflare.Domain (my_ip w)) hreq
  have hmain := main_updates_of_diff w sub_domain root_domain zone_id now_IP record_id hmatch
    hzone hrec hne
  refine ⟨hip, ?_, hmain.2⟩
  rw [hmain.1, hsend, updateRequest_updateData, hmy]
  rfl

theorem C9_failed_ip_fetch_overwrites_witness :
    (exampleWorld "home.example.com" (.error "connection refused")).httpGet
      (config (exampleWorld "home.example.com" (.error "connection refused"))).ReturnIP
      = .error "connection refused" ∧
    (getRecord (exampleWorld "home.example.com" (.error "connection refused")) "TOKEN" "Z1"
      "home.example.com").1 = ("1.2.3.4", "R1", none) ∧
    "1.2.3.4" ≠ "" ∧
    (exampleWorld "home.example.com" (.error "connection refused")).newRequest "PUT"
      (CloudflareURL ++ "zones/" ++ "Z1" ++ "/dns_records/" ++ "R1") = none ∧
    (main (exampleWorld "home.example.com" (.error "connection refused"))).exit = .code 0 ∧
    updates (main (exampleWorld "home.example.com" (.error "connection refused")))
      = [Event.updateRequest
          { Method := "PUT",
            URL := "https://api.cloudflare.com/client/v4/zones/Z1/dns_records/R1",
            Header := [("Content-Type", "application/json"),
              ("Authorization", "Bearer TOKEN")],
            Body :=
              { type := utf8 "A", name := utf8 "home.example.com", content := [],
                ttl := 3600 } }] :=
  ⟨by decide, by decide, by decide, rfl,
    (C9_failed_ip_fetch_overwrites (exampleWorld "home.example.com"
      (.error "connection refused")) "connection refused" "home." "example.com" "Z1"
      "1.2.3.4" "R1" (by decide) (by decide) (by decide) (by decide) (by decide) rfl).2.2,
    (C9_failed_ip_fetch_overwrites (exampleWorld "home.example.com"
      (.error "connection refused")) "connection refused" "home." "example.com" "Z1"
      "1.2.3.4" "R1" (by decide) (by decide) (by decide) (by decide) (by decide) rfl).2.1⟩

/-- C10: when the configured domain has a hyphen that is followed by two or more dots (a
hyphen in a label before the last two labels), or is the empty domain of a zero-valued
configuration (which is what an unreadable `config.json` gives), the pattern does not match,
`FindStringSubmatch` returns no captures, and `main` ends with the index fault of reading
`result[2]` of an empty list, before any zone lookup, record lookup, update request or
notification; a hyphen in the second-to-last label (`my-home.com`) does match. -/
theorem C10_unmatched_domain_faults (w : World) (a b : List Char)
    (hdomain : ((config w).Cloudflare.Domain.data = a ++ '-' :: b ∧ 2 ≤ b.count '.') ∨
      (config w).Cloudflare.Domain = "") :
    FindStringSubmatch Domain (config w).Cloudflare.Domain = [] ∧
    (main w).exit = .indexOutOfRange 2 0 ∧
    zoneLookups (main w) = [] ∧ recordLookups (main w) = [] ∧
    updates (main w) = [] ∧ posts (main w) = [] ∧
    (∀ (w₀ : World) (err : GoError), w₀.readFile = .error err →
      config w₀ = Config.zero ∧ (config w₀).Cloudflare.Domain = "") ∧
    FindStringSubmatch Domain "my-home.example.com" = [] ∧
    FindStringSubmatch Domain "my-home.com" = ["my-home.com", "", "my-home.com"] ∧
    captures "my-home.com" = .ok ("", "my-home.com") := by
  have hno : FindStringSubmatch Domain (config w).Cloudflare.Domain = [] := by
    rcases hdomain with ⟨hd, hb⟩ | he
    · exact no_match_of_early_hyphen _ a b hd hb
    · rw [he]; decide
  have hcap := captures_of_no_match hno
  simp only [config] at hcap
  refine ⟨hno, ?_, ?_, ?_, ?_, ?_, ?_, by decide, by decide, by decide⟩
  · simp [main, hcap]
  · simp [main, zoneLookups, hcap, List.filter_cons, Event.isZoneLookup]
  · simp [main, recordLookups, hcap, List.filter_cons, Event.isRecordLookup]
  · simp [main, updates, hcap, List.filter_cons, Event.isUpdate]
  · simp [main, posts, hcap, List.filter_cons, Event.isPost]
  · intro w₀ err h
    simp [config, readToken, h, Config.zero]

theorem C10_unmatched_domain_faults_witness :
    ((config (exampleWorld "my-home.example.com" (.ok (utf8 "5.6.7.8")))).Cloudflare.Domain.data
      = "my".data ++ '-' :: "home.example.com".data ∧
      2 ≤ "home.example.com".data.count '.') ∧
    FindStringSubmatch Domain "my-home.example.com" = [] ∧
    (main (exampleWorld "my-home.example.com" (.ok (utf8 "5.6.7.8")))).exit = .indexOutOfRange 2 0 ∧
    (main noConfigWorld).exit = .indexOutOfRange 2 0 :=
  ⟨by decide,
    (C10_unmatched_domain_faults (exampleWorld "my-home.example.com" (.ok (utf8 "5.6.7.8")))
      "my".data "home.example.com".data (Or.inl (by decide))).1,
    (C10_unmatched_domain_faults (exampleWorld "my-home.example.com" (.ok (utf8 "5.6.7.8")))
      "my".data "home.example.com".data (Or.inl (by decide))).2.1,
    (C10_unmatched_domain_faults noConfigWorld [] [] (Or.inr (by decide))).2.1⟩

end ddns

